import Mathlib

/-!
Verification of the move-simulation kernel of the edax reversi engine:
the flip computation of flip_sse_bitscan.c and the terminal flip counter of
count_last_flip_sse.c, embedded shallowly over Nat with explicit 64-bit
wraparound, together with the specification-level ray semantics they are
checked against.
-/

namespace Edax

/-- Modulus of 64-bit unsigned arithmetic. -/
def M64 : Nat := 2 ^ 64

/-- Bitwise complement of a 64-bit word (C unary ~ on unsigned long long). -/
def c64 (x : Nat) : Nat := (M64 - 1) ^^^ x % M64

/-- Wrapping 64-bit subtraction (C unsigned subtraction). -/
def sub64 (a b : Nat) : Nat := (a % M64 + (M64 - b % M64)) % M64

/-- Wrapping 64-bit negation (C unary minus on unsigned long long). -/
def neg64 (a : Nat) : Nat := (M64 - a % M64) % M64

/-- Wrapping 64-bit multiplication. -/
def mul64 (a b : Nat) : Nat := a * b % M64

/-- Fuel-bounded binary length: blen f x is the number of binary digits of x
whenever x < 2 ^ f; structural recursion keeps it kernel-computable. -/
def blen : Nat → Nat → Nat
  | 0, _ => 0
  | f + 1, x => if x = 0 then 0 else blen f (x / 2) + 1

/-- Count of leading zeros of a 64-bit word: the lzcnt64 primitive used by
count_opp_reverse in the source; it returns 64 on input 0. -/
def lzcnt64 (x : Nat) : Nat := 64 - blen 64 x

/-- The per-square boundary masks for the four high-direction rays (step +1, +7,
+8, +9), stored complemented exactly as in the source table `maskl[64][2]`:
row i holds [maskl[i][0].ull[0], maskl[i][0].ull[1], maskl[i][1].ull[0],
maskl[i][1].ull[1]], each entry written as c64 of the hex constant under the ~. -/
def maskl : List (List Nat) := [
[c64 0x00000000000000fe, c64 0x0000000000000000, c64 0x0101010101010100, c64 0x8040201008040200],
[c64 0x00000000000000fc, c64 0x0000000000000100, c64 0x0202020202020200, c64 0x0080402010080400],
[c64 0x00000000000000f8, c64 0x0000000000010200, c64 0x0404040404040400, c64 0x0000804020100800],
[c64 0x00000000000000f0, c64 0x0000000001020400, c64 0x0808080808080800, c64 0x0000008040201000],
[c64 0x00000000000000e0, c64 0x0000000102040800, c64 0x1010101010101000, c64 0x0000000080402000],
[c64 0x00000000000000c0, c64 0x0000010204081000, c64 0x2020202020202000, c64 0x0000000000804000],
[c64 0x0000000000000080, c64 0x0001020408102000, c64 0x4040404040404000, c64 0x0000000000008000],
[c64 0x0000000000000000, c64 0x0102040810204000, c64 0x8080808080808000, c64 0x0000000000000000],
[c64 0x000000000000fe00, c64 0x0000000000000000, c64 0x0101010101010000, c64 0x4020100804020000],
[c64 0x000000000000fc00, c64 0x0000000000010000, c64 0x0202020202020000, c64 0x8040201008040000],
[c64 0x000000000000f800, c64 0x0000000001020000, c64 0x0404040404040000, c64 0x0080402010080000],
[c64 0x000000000000f000, c64 0x0000000102040000, c64 0x0808080808080000, c64 0x0000804020100000],
[c64 0x000000000000e000, c64 0x0000010204080000, c64 0x1010101010100000, c64 0x0000008040200000],
[c64 0x000000000000c000, c64 0x0001020408100000, c64 0x2020202020200000, c64 0x0000000080400000],
[c64 0x0000000000008000, c64 0x0102040810200000, c64 0x4040404040400000, c64 0x0000000000800000],
[c64 0x0000000000000000, c64 0x0204081020400000, c64 0x8080808080800000, c64 0x0000000000000000],
[c64 0x0000000000fe0000, c64 0x0000000000000000, c64 0x0101010101000000, c64 0x2010080402000000],
[c64 0x0000000000fc0000, c64 0x0000000001000000, c64 0x0202020202000000, c64 0x4020100804000000],
[c64 0x0000000000f80000, c64 0x0000000102000000, c64 0x0404040404000000, c64 0x8040201008000000],
[c64 0x0000000000f00000, c64 0x0000010204000000, c64 0x0808080808000000, c64 0x0080402010000000],
[c64 0x0000000000e00000, c64 0x0001020408000000, c64 0x1010101010000000, c64 0x0000804020000000],
[c64 0x0000000000c00000, c64 0x0102040810000000, c64 0x2020202020000000, c64 0x0000008040000000],
[c64 0x0000000000800000, c64 0x0204081020000000, c64 0x4040404040000000, c64 0x0000000080000000],
[c64 0x0000000000000000, c64 0x0408102040000000, c64 0x8080808080000000, c64 0x0000000000000000],
[c64 0x00000000fe000000, c64 0x0000000000000000, c64 0x0101010100000000, c64 0x1008040200000000],
[c64 0x00000000fc000000, c64 0x0000000100000000, c64 0x0202020200000000, c64 0x2010080400000000],
[c64 0x00000000f8000000, c64 0x0000010200000000, c64 0x0404040400000000, c64 0x4020100800000000],
[c64 0x00000000f0000000, c64 0x0001020400000000, c64 0x0808080800000000, c64 0x8040201000000000],
[c64 0x00000000e0000000, c64 0x0102040800000000, c64 0x1010101000000000, c64 0x0080402000000000],
[c64 0x00000000c0000000, c64 0x0204081000000000, c64 0x2020202000000000, c64 0x0000804000000000],
[c64 0x0000000080000000, c64 0x0408102000000000, c64 0x4040404000000000, c64 0x0000008000000000],
[c64 0x0000000000000000, c64 0x0810204000000000, c64 0x8080808000000000, c64 0x0000000000000000],
[c64 0x000000fe00000000, c64 0x0000000000000000, c64 0x0101010000000000, c64 0x0804020000000000],
[c64 0x000000fc00000000, c64 0x0000010000000000, c64 0x0202020000000000, c64 0x1008040000000000],
[c64 0x000000f800000000, c64 0x0001020000000000, c64 0x0404040000000000, c64 0x2010080000000000],
[c64 0x000000f000000000, c64 0x0102040000000000, c64 0x0808080000000000, c64 0x4020100000000000],
[c64 0x000000e000000000, c64 0x0204080000000000, c64 0x1010100000000000, c64 0x8040200000000000],
[c64 0x000000c000000000, c64 0x0408100000000000, c64 0x2020200000000000, c64 0x0080400000000000],
[c64 0x0000008000000000, c64 0x0810200000000000, c64 0x4040400000000000, c64 0x0000800000000000],
[c64 0x0000000000000000, c64 0x1020400000000000, c64 0x8080800000000000, c64 0x0000000000000000],
[c64 0x0000fe0000000000, c64 0x0000000000000000, c64 0x0101000000000000, c64 0x0402000000000000],
[c64 0x0000fc0000000000, c64 0x0001000000000000, c64 0x0202000000000000, c64 0x0804000000000000],
[c64 0x0000f80000000000, c64 0x0102000000000000, c64 0x0404000000000000, c64 0x1008000000000000],
[c64 0x0000f00000000000, c64 0x0204000000000000, c64 0x0808000000000000, c64 0x2010000000000000],
[c64 0x0000e00000000000, c64 0x0408000000000000, c64 0x1010000000000000, c64 0x4020000000000000],
[c64 0x0000c00000000000, c64 0x0810000000000000, c64 0x2020000000000000, c64 0x8040000000000000],
[c64 0x0000800000000000, c64 0x1020000000000000, c64 0x4040000000000000, c64 0x0080000000000000],
[c64 0x0000000000000000, c64 0x2040000000000000, c64 0x8080000000000000, c64 0x0000000000000000],
[c64 0x00fe000000000000, c64 0x0000000000000000, c64 0x0100000000000000, c64 0x0200000000000000],
[c64 0x00fc000000000000, c64 0x0100000000000000, c64 0x0200000000000000, c64 0x0400000000000000],
[c64 0x00f8000000000000, c64 0x0200000000000000, c64 0x0400000000000000, c64 0x0800000000000000],
[c64 0x00f0000000000000, c64 0x0400000000000000, c64 0x0800000000000000, c64 0x1000000000000000],
[c64 0x00e0000000000000, c64 0x0800000000000000, c64 0x1000000000000000, c64 0x2000000000000000],
[c64 0x00c0000000000000, c64 0x1000000000000000, c64 0x2000000000000000, c64 0x4000000000000000],
[c64 0x0080000000000000, c64 0x2000000000000000, c64 0x4000000000000000, c64 0x8000000000000000],
[c64 0x0000000000000000, c64 0x4000000000000000, c64 0x8000000000000000, c64 0x0000000000000000],
[c64 0xfe00000000000000, c64 0x0000000000000000, c64 0x0000000000000000, c64 0x0000000000000000],
[c64 0xfc00000000000000, c64 0x0000000000000000, c64 0x0000000000000000, c64 0x0000000000000000],
[c64 0xf800000000000000, c64 0x0000000000000000, c64 0x0000000000000000, c64 0x0000000000000000],
[c64 0xf000000000000000, c64 0x0000000000000000, c64 0x0000000000000000, c64 0x0000000000000000],
[c64 0xe000000000000000, c64 0x0000000000000000, c64 0x0000000000000000, c64 0x0000000000000000],
[c64 0xc000000000000000, c64 0x0000000000000000, c64 0x0000000000000000, c64 0x0000000000000000],
[c64 0x8000000000000000, c64 0x0000000000000000, c64 0x0000000000000000, c64 0x0000000000000000],
[c64 0x0000000000000000, c64 0x0000000000000000, c64 0x0000000000000000, c64 0x0000000000000000]
]

/-- The per-square boundary masks for the four low-direction rays (step -1, -7,
-8, -9), transcribed from the source table `maskr[64][4]`. -/
def maskr : List (List Nat) := [
[0x0000000000000000, 0x0000000000000000, 0x0000000000000000, 0x0000000000000000],
[0x0000000000000001, 0x0000000000000000, 0x0000000000000000, 0x0000000000000000],
[0x0000000000000003, 0x0000000000000000, 0x0000000000000000, 0x0000000000000000],
[0x0000000000000007, 0x0000000000000000, 0x0000000000000000, 0x0000000000000000],
[0x000000000000000f, 0x0000000000000000, 0x0000000000000000, 0x0000000000000000],
[0x000000000000001f, 0x0000000000000000, 0x0000000000000000, 0x0000000000000000],
[0x000000000000003f, 0x0000000000000000, 0x0000000000000000, 0x0000000000000000],
[0x000000000000007f, 0x0000000000000000, 0x0000000000000000, 0x0000000000000000],
[0x0000000000000000, 0x0000000000000002, 0x0000000000000001, 0x0000000000000000],
[0x0000000000000100, 0x0000000000000004, 0x0000000000000002, 0x0000000000000001],
[0x0000000000000300, 0x0000000000000008, 0x0000000000000004, 0x0000000000000002],
[0x0000000000000700, 0x0000000000000010, 0x0000000000000008, 0x0000000000000004],
[0x0000000000000f00, 0x0000000000000020, 0x0000000000000010, 0x0000000000000008],
[0x0000000000001f00, 0x0000000000000040, 0x0000000000000020, 0x0000000000000010],
[0x0000000000003f00, 0x0000000000000080, 0x0000000000000040, 0x0000000000000020],
[0x0000000000007f00, 0x0000000000000000, 0x0000000000000080, 0x0000000000000040],
[0x0000000000000000, 0x0000000000000204, 0x0000000000000101, 0x0000000000000000],
[0x0000000000010000, 0x0000000000000408, 0x0000000000000202, 0x0000000000000100],
[0x0000000000030000, 0x0000000000000810, 0x0000000000000404, 0x0000000000000201],
[0x0000000000070000, 0x0000000000001020, 0x0000000000000808, 0x0000000000000402],
[0x00000000000f0000, 0x0000000000002040, 0x0000000000001010, 0x0000000000000804],
[0x00000000001f0000, 0x0000000000004080, 0x0000000000002020, 0x0000000000001008],
[0x00000000003f0000, 0x0000000000008000, 0x0000000000004040, 0x0000000000002010],
[0x00000000007f0000, 0x0000000000000000, 0x0000000000008080, 0x0000000000004020],
[0x0000000000000000, 0x0000000000020408, 0x0000000000010101, 0x0000000000000000],
[0x0000000001000000, 0x0000000000040810, 0x0000000000020202, 0x0000000000010000],
[0x0000000003000000, 0x0000000000081020, 0x0000000000040404, 0x0000000000020100],
[0x0000000007000000, 0x0000000000102040, 0x0000000000080808, 0x0000000000040201],
[0x000000000f000000, 0x0000000000204080, 0x0000000000101010, 0x0000000000080402],
[0x000000001f000000, 0x0000000000408000, 0x0000000000202020, 0x0000000000100804],
[0x000000003f000000, 0x0000000000800000, 0x0000000000404040, 0x0000000000201008],
[0x000000007f000000, 0x0000000000000000, 0x0000000000808080, 0x0000000000402010],
[0x0000000000000000, 0x0000000002040810, 0x0000000001010101, 0x0000000000000000],
[0x0000000100000000, 0x0000000004081020, 0x0000000002020202, 0x0000000001000000],
[0x0000000300000000, 0x0000000008102040, 0x0000000004040404, 0x0000000002010000],
[0x0000000700000000, 0x0000000010204080, 0x0000000008080808, 0x0000000004020100],
[0x0000000f00000000, 0x0000000020408000, 0x0000000010101010, 0x0000000008040201],
[0x0000001f00000000, 0x0000000040800000, 0x0000000020202020, 0x0000000010080402],
[0x0000003f00000000, 0x0000000080000000, 0x0000000040404040, 0x0000000020100804],
[0x0000007f00000000, 0x0000000000000000, 0x0000000080808080, 0x0000000040201008],
[0x0000000000000000, 0x0000000204081020, 0x0000000101010101, 0x0000000000000000],
[0x0000010000000000, 0x0000000408102040, 0x0000000202020202, 0x0000000100000000],
[0x0000030000000000, 0x0000000810204080, 0x0000000404040404, 0x0000000201000000],
[0x0000070000000000, 0x0000001020408000, 0x0000000808080808, 0x0000000402010000],
[0x00000f0000000000, 0x0000002040800000, 0x0000001010101010, 0x0000000804020100],
[0x00001f0000000000, 0x0000004080000000, 0x0000002020202020, 0x0000001008040201],
[0x00003f0000000000, 0x0000008000000000, 0x0000004040404040, 0x0000002010080402],
[0x00007f0000000000, 0x0000000000000000, 0x0000008080808080, 0x0000004020100804],
[0x0000000000000000, 0x0000020408102040, 0x0000010101010101, 0x0000000000000000],
[0x0001000000000000, 0x0000040810204080, 0x0000020202020202, 0x0000010000000000],
[0x0003000000000000, 0x0000081020408000, 0x0000040404040404, 0x0000020100000000],
[0x0007000000000000, 0x0000102040800000, 0x0000080808080808, 0x0000040201000000],
[0x000f000000000000, 0x0000204080000000, 0x0000101010101010, 0x0000080402010000],
[0x001f000000000000, 0x0000408000000000, 0x0000202020202020, 0x0000100804020100],
[0x003f000000000000, 0x0000800000000000, 0x0000404040404040, 0x0000201008040201],
[0x007f000000000000, 0x0000000000000000, 0x0000808080808080, 0x0000402010080402],
[0x0000000000000000, 0x0002040810204080, 0x0001010101010101, 0x0000000000000000],
[0x0100000000000000, 0x0004081020408000, 0x0002020202020202, 0x0001000000000000],
[0x0300000000000000, 0x0008102040800000, 0x0004040404040404, 0x0002010000000000],
[0x0700000000000000, 0x0010204080000000, 0x0008080808080808, 0x0004020100000000],
[0x0f00000000000000, 0x0020408000000000, 0x0010101010101010, 0x0008040201000000],
[0x1f00000000000000, 0x0040800000000000, 0x0020202020202020, 0x0010080402010000],
[0x3f00000000000000, 0x0080000000000000, 0x0040404040404040, 0x0020100804020100],
[0x7f00000000000000, 0x0000000000000000, 0x0080808080808080, 0x0040201008040201]
]

/-- AVX2 diagonal/column line masks, transcribed from the source table
`mask_d_v[64]`: lanes are [antidiagonal, diagonal, column, 0]. -/
def mask_d_v : List (List Nat) := [
[0x0000000000000001, 0x8040201008040201, 0x0101010101010101, 0],
[0x0000000000000102, 0x0080402010080402, 0x0202020202020202, 0],
[0x0000000000010204, 0x0000804020100804, 0x0404040404040404, 0],
[0x0000000001020408, 0x0000008040201008, 0x0808080808080808, 0],
[0x0000000102040810, 0x0000000080402010, 0x1010101010101010, 0],
[0x0000010204081020, 0x0000000000804020, 0x2020202020202020, 0],
[0x0001020408102040, 0x0000000000008040, 0x4040404040404040, 0],
[0x0102040810204080, 0x0000000000000080, 0x8080808080808080, 0],
[0x0000000000000102, 0x4020100804020100, 0x0101010101010101, 0],
[0x0000000000010204, 0x8040201008040201, 0x0202020202020202, 0],
[0x0000000001020408, 0x0080402010080402, 0x0404040404040404, 0],
[0x0000000102040810, 0x0000804020100804, 0x0808080808080808, 0],
[0x0000010204081020, 0x0000008040201008, 0x1010101010101010, 0],
[0x0001020408102040, 0x0000000080402010, 0x2020202020202020, 0],
[0x0102040810204080, 0x0000000000804020, 0x4040404040404040, 0],
[0x0204081020408000, 0x0000000000008040, 0x8080808080808080, 0],
[0x0000000000010204, 0x2010080402010000, 0x0101010101010101, 0],
[0x0000000001020408, 0x4020100804020100, 0x0202020202020202, 0],
[0x0000000102040810, 0x8040201008040201, 0x0404040404040404, 0],
[0x0000010204081020, 0x0080402010080402, 0x0808080808080808, 0],
[0x0001020408102040, 0x0000804020100804, 0x1010101010101010, 0],
[0x0102040810204080, 0x0000008040201008, 0x2020202020202020, 0],
[0x0204081020408000, 0x0000000080402010, 0x4040404040404040, 0],
[0x0408102040800000, 0x0000000000804020, 0x8080808080808080, 0],
[0x0000000001020408, 0x1008040201000000, 0x0101010101010101, 0],
[0x0000000102040810, 0x2010080402010000, 0x0202020202020202, 0],
[0x0000010204081020, 0x4020100804020100, 0x0404040404040404, 0],
[0x0001020408102040, 0x8040201008040201, 0x0808080808080808, 0],
[0x0102040810204080, 0x0080402010080402, 0x1010101010101010, 0],
[0x0204081020408000, 0x0000804020100804, 0x2020202020202020, 0],
[0x0408102040800000, 0x0000008040201008, 0x4040404040404040, 0],
[0x0810204080000000, 0x0000000080402010, 0x8080808080808080, 0],
[0x0000000102040810, 0x0804020100000000, 0x0101010101010101, 0],
[0x0000010204081020, 0x1008040201000000, 0x0202020202020202, 0],
[0x0001020408102040, 0x2010080402010000, 0x0404040404040404, 0],
[0x0102040810204080, 0x4020100804020100, 0x0808080808080808, 0],
[0x0204081020408000, 0x8040201008040201, 0x1010101010101010, 0],
[0x0408102040800000, 0x0080402010080402, 0x2020202020202020, 0],
[0x0810204080000000, 0x0000804020100804, 0x4040404040404040, 0],
[0x1020408000000000, 0x0000008040201008, 0x8080808080808080, 0],
[0x0000010204081020, 0x0402010000000000, 0x0101010101010101, 0],
[0x0001020408102040, 0x0804020100000000, 0x0202020202020202, 0],
[0x0102040810204080, 0x1008040201000000, 0x0404040404040404, 0],
[0x0204081020408000, 0x2010080402010000, 0x0808080808080808, 0],
[0x0408102040800000, 0x4020100804020100, 0x1010101010101010, 0],
[0x0810204080000000, 0x8040201008040201, 0x2020202020202020, 0],
[0x1020408000000000, 0x0080402010080402, 0x4040404040404040, 0],
[0x2040800000000000, 0x0000804020100804, 0x8080808080808080, 0],
[0x0001020408102040, 0x0201000000000000, 0x0101010101010101, 0],
[0x0102040810204080, 0x0402010000000000, 0x0202020202020202, 0],
[0x0204081020408000, 0x0804020100000000, 0x0404040404040404, 0],
[0x0408102040800000, 0x1008040201000000, 0x0808080808080808, 0],
[0x0810204080000000, 0x2010080402010000, 0x1010101010101010, 0],
[0x1020408000000000, 0x4020100804020100, 0x2020202020202020, 0],
[0x2040800000000000, 0x8040201008040201, 0x4040404040404040, 0],
[0x4080000000000000, 0x0080402010080402, 0x8080808080808080, 0],
[0x0102040810204080, 0x0100000000000000, 0x0101010101010101, 0],
[0x0204081020408000, 0x0201000000000000, 0x0202020202020202, 0],
[0x0408102040800000, 0x0402010000000000, 0x0404040404040404, 0],
[0x0810204080000000, 0x0804020100000000, 0x0808080808080808, 0],
[0x1020408000000000, 0x1008040201000000, 0x1010101010101010, 0],
[0x2040800000000000, 0x2010080402010000, 0x2020202020202020, 0],
[0x4080000000000000, 0x4020100804020100, 0x4040404040404040, 0],
[0x8000000000000000, 0x8040201008040201, 0x8080808080808080, 0]
]

/-- SSE diagonal line masks, transcribed from the source table `mask_d[64]`:
lanes are [antidiagonal, diagonal]. -/
def mask_d : List (List Nat) := [
[0x0000000000000001, 0x8040201008040201],
[0x0000000000000102, 0x0080402010080402],
[0x0000000000010204, 0x0000804020100804],
[0x0000000001020408, 0x0000008040201008],
[0x0000000102040810, 0x0000000080402010],
[0x0000010204081020, 0x0000000000804020],
[0x0001020408102040, 0x0000000000008040],
[0x0102040810204080, 0x0000000000000080],
[0x0000000000000102, 0x4020100804020100],
[0x0000000000010204, 0x8040201008040201],
[0x0000000001020408, 0x0080402010080402],
[0x0000000102040810, 0x0000804020100804],
[0x0000010204081020, 0x0000008040201008],
[0x0001020408102040, 0x0000000080402010],
[0x0102040810204080, 0x0000000000804020],
[0x0204081020408000, 0x0000000000008040],
[0x0000000000010204, 0x2010080402010000],
[0x0000000001020408, 0x4020100804020100],
[0x0000000102040810, 0x8040201008040201],
[0x0000010204081020, 0x0080402010080402],
[0x0001020408102040, 0x0000804020100804],
[0x0102040810204080, 0x0000008040201008],
[0x0204081020408000, 0x0000000080402010],
[0x0408102040800000, 0x0000000000804020],
[0x0000000001020408, 0x1008040201000000],
[0x0000000102040810, 0x2010080402010000],
[0x0000010204081020, 0x4020100804020100],
[0x0001020408102040, 0x8040201008040201],
[0x0102040810204080, 0x0080402010080402],
[0x0204081020408000, 0x0000804020100804],
[0x0408102040800000, 0x0000008040201008],
[0x0810204080000000, 0x0000000080402010],
[0x0000000102040810, 0x0804020100000000],
[0x0000010204081020, 0x1008040201000000],
[0x0001020408102040, 0x2010080402010000],
[0x0102040810204080, 0x4020100804020100],
[0x0204081020408000, 0x8040201008040201],
[0x0408102040800000, 0x0080402010080402],
[0x0810204080000000, 0x0000804020100804],
[0x1020408000000000, 0x0000008040201008],
[0x0000010204081020, 0x0402010000000000],
[0x0001020408102040, 0x0804020100000000],
[0x0102040810204080, 0x1008040201000000],
[0x0204081020408000, 0x2010080402010000],
[0x0408102040800000, 0x4020100804020100],
[0x0810204080000000, 0x8040201008040201],
[0x1020408000000000, 0x0080402010080402],
[0x2040800000000000, 0x0000804020100804],
[0x0001020408102040, 0x0201000000000000],
[0x0102040810204080, 0x0402010000000000],
[0x0204081020408000, 0x0804020100000000],
[0x0408102040800000, 0x1008040201000000],
[0x0810204080000000, 0x2010080402010000],
[0x1020408000000000, 0x4020100804020100],
[0x2040800000000000, 0x8040201008040201],
[0x4080000000000000, 0x0080402010080402],
[0x0102040810204080, 0x0100000000000000],
[0x0204081020408000, 0x0201000000000000],
[0x0408102040800000, 0x0402010000000000],
[0x0810204080000000, 0x0804020100000000],
[0x1020408000000000, 0x1008040201000000],
[0x2040800000000000, 0x2010080402010000],
[0x4080000000000000, 0x4020100804020100],
[0x8000000000000000, 0x8040201008040201]
]

/-- The 8 x 256 precomputed doubled flip-count table, transcribed from the
source table `COUNT_FLIP[8][256]`. -/
def COUNT_FLIP : List (List Nat) := [
[0, 0, 0, 0, 2, 2, 0, 0, 4, 4, 0, 0, 2, 2, 0, 0, 6, 6, 0, 0, 2, 2, 0, 0, 4, 4, 0, 0, 2, 2, 0, 0,
8, 8, 0, 0, 2, 2, 0, 0, 4, 4, 0, 0, 2, 2, 0, 0, 6, 6, 0, 0, 2, 2, 0, 0, 4, 4, 0, 0, 2, 2, 0, 0,
10, 10, 0, 0, 2, 2, 0, 0, 4, 4, 0, 0, 2, 2, 0, 0, 6, 6, 0, 0, 2, 2, 0, 0, 4, 4, 0, 0, 2, 2, 0, 0,
8, 8, 0, 0, 2, 2, 0, 0, 4, 4, 0, 0, 2, 2, 0, 0, 6, 6, 0, 0, 2, 2, 0, 0, 4, 4, 0, 0, 2, 2, 0, 0,
12, 12, 0, 0, 2, 2, 0, 0, 4, 4, 0, 0, 2, 2, 0, 0, 6, 6, 0, 0, 2, 2, 0, 0, 4, 4, 0, 0, 2, 2, 0, 0,
8, 8, 0, 0, 2, 2, 0, 0, 4, 4, 0, 0, 2, 2, 0, 0, 6, 6, 0, 0, 2, 2, 0, 0, 4, 4, 0, 0, 2, 2, 0, 0,
10, 10, 0, 0, 2, 2, 0, 0, 4, 4, 0, 0, 2, 2, 0, 0, 6, 6, 0, 0, 2, 2, 0, 0, 4, 4, 0, 0, 2, 2, 0, 0,
8, 8, 0, 0, 2, 2, 0, 0, 4, 4, 0, 0, 2, 2, 0, 0, 6, 6, 0, 0, 2, 2, 0, 0, 4, 4, 0, 0, 2, 2, 0, 0],
[0, 0, 0, 0, 0, 0, 0, 0, 2, 2, 2, 2, 0, 0, 0, 0, 4, 4, 4, 4, 0, 0, 0, 0, 2, 2, 2, 2, 0, 0, 0, 0,
6, 6, 6, 6, 0, 0, 0, 0, 2, 2, 2, 2, 0, 0, 0, 0, 4, 4, 4, 4, 0, 0, 0, 0, 2, 2, 2, 2, 0, 0, 0, 0,
8, 8, 8, 8, 0, 0, 0, 0, 2, 2, 2, 2, 0, 0, 0, 0, 4, 4, 4, 4, 0, 0, 0, 0, 2, 2, 2, 2, 0, 0, 0, 0,
6, 6, 6, 6, 0, 0, 0, 0, 2, 2, 2, 2, 0, 0, 0, 0, 4, 4, 4, 4, 0, 0, 0, 0, 2, 2, 2, 2, 0, 0, 0, 0,
10, 10, 10, 10, 0, 0, 0, 0, 2, 2, 2, 2, 0, 0, 0, 0, 4, 4, 4, 4, 0, 0, 0, 0, 2, 2, 2, 2, 0, 0, 0, 0,
6, 6, 6, 6, 0, 0, 0, 0, 2, 2, 2, 2, 0, 0, 0, 0, 4, 4, 4, 4, 0, 0, 0, 0, 2, 2, 2, 2, 0, 0, 0, 0,
8, 8, 8, 8, 0, 0, 0, 0, 2, 2, 2, 2, 0, 0, 0, 0, 4, 4, 4, 4, 0, 0, 0, 0, 2, 2, 2, 2, 0, 0, 0, 0,
6, 6, 6, 6, 0, 0, 0, 0, 2, 2, 2, 2, 0, 0, 0, 0, 4, 4, 4, 4, 0, 0, 0, 0, 2, 2, 2, 2, 0, 0, 0, 0],
[0, 2, 0, 0, 0, 2, 0, 0, 0, 2, 0, 0, 0, 2, 0, 0, 2, 4, 2, 2, 2, 4, 2, 2, 0, 2, 0, 0, 0, 2, 0, 0,
4, 6, 4, 4, 4, 6, 4, 4, 0, 2, 0, 0, 0, 2, 0, 0, 2, 4, 2, 2, 2, 4, 2, 2, 0, 2, 0, 0, 0, 2, 0, 0,
6, 8, 6, 6, 6, 8, 6, 6, 0, 2, 0, 0, 0, 2, 0, 0, 2, 4, 2, 2, 2, 4, 2, 2, 0, 2, 0, 0, 0, 2, 0, 0,
4, 6, 4, 4, 4, 6, 4, 4, 0, 2, 0, 0, 0, 2, 0, 0, 2, 4, 2, 2, 2, 4, 2, 2, 0, 2, 0, 0, 0, 2, 0, 0,
8, 10, 8, 8, 8, 10, 8, 8, 0, 2, 0, 0, 0, 2, 0, 0, 2, 4, 2, 2, 2, 4, 2, 2, 0, 2, 0, 0, 0, 2, 0, 0,
4, 6, 4, 4, 4, 6, 4, 4, 0, 2, 0, 0, 0, 2, 0, 0, 2, 4, 2, 2, 2, 4, 2, 2, 0, 2, 0, 0, 0, 2, 0, 0,
6, 8, 6, 6, 6, 8, 6, 6, 0, 2, 0, 0, 0, 2, 0, 0, 2, 4, 2, 2, 2, 4, 2, 2, 0, 2, 0, 0, 0, 2, 0, 0,
4, 6, 4, 4, 4, 6, 4, 4, 0, 2, 0, 0, 0, 2, 0, 0, 2, 4, 2, 2, 2, 4, 2, 2, 0, 2, 0, 0, 0, 2, 0, 0],
[0, 4, 2, 2, 0, 0, 0, 0, 0, 4, 2, 2, 0, 0, 0, 0, 0, 4, 2, 2, 0, 0, 0, 0, 0, 4, 2, 2, 0, 0, 0, 0,
2, 6, 4, 4, 2, 2, 2, 2, 2, 6, 4, 4, 2, 2, 2, 2, 0, 4, 2, 2, 0, 0, 0, 0, 0, 4, 2, 2, 0, 0, 0, 0,
4, 8, 6, 6, 4, 4, 4, 4, 4, 8, 6, 6, 4, 4, 4, 4, 0, 4, 2, 2, 0, 0, 0, 0, 0, 4, 2, 2, 0, 0, 0, 0,
2, 6, 4, 4, 2, 2, 2, 2, 2, 6, 4, 4, 2, 2, 2, 2, 0, 4, 2, 2, 0, 0, 0, 0, 0, 4, 2, 2, 0, 0, 0, 0,
6, 10, 8, 8, 6, 6, 6, 6, 6, 10, 8, 8, 6, 6, 6, 6, 0, 4, 2, 2, 0, 0, 0, 0, 0, 4, 2, 2, 0, 0, 0, 0,
2, 6, 4, 4, 2, 2, 2, 2, 2, 6, 4, 4, 2, 2, 2, 2, 0, 4, 2, 2, 0, 0, 0, 0, 0, 4, 2, 2, 0, 0, 0, 0,
4, 8, 6, 6, 4, 4, 4, 4, 4, 8, 6, 6, 4, 4, 4, 4, 0, 4, 2, 2, 0, 0, 0, 0, 0, 4, 2, 2, 0, 0, 0, 0,
2, 6, 4, 4, 2, 2, 2, 2, 2, 6, 4, 4, 2, 2, 2, 2, 0, 4, 2, 2, 0, 0, 0, 0, 0, 4, 2, 2, 0, 0, 0, 0],
[0, 6, 4, 4, 2, 2, 2, 2, 0, 0, 0, 0, 0, 0, 0, 0, 0, 6, 4, 4, 2, 2, 2, 2, 0, 0, 0, 0, 0, 0, 0, 0,
0, 6, 4, 4, 2, 2, 2, 2, 0, 0, 0, 0, 0, 0, 0, 0, 0, 6, 4, 4, 2, 2, 2, 2, 0, 0, 0, 0, 0, 0, 0, 0,
2, 8, 6, 6, 4, 4, 4, 4, 2, 2, 2, 2, 2, 2, 2, 2, 2, 8, 6, 6, 4, 4, 4, 4, 2, 2, 2, 2, 2, 2, 2, 2,
0, 6, 4, 4, 2, 2, 2, 2, 0, 0, 0, 0, 0, 0, 0, 0, 0, 6, 4, 4, 2, 2, 2, 2, 0, 0, 0, 0, 0, 0, 0, 0,
4, 10, 8, 8, 6, 6, 6, 6, 4, 4, 4, 4, 4, 4, 4, 4, 4, 10, 8, 8, 6, 6, 6, 6, 4, 4, 4, 4, 4, 4, 4, 4,
0, 6, 4, 4, 2, 2, 2, 2, 0, 0, 0, 0, 0, 0, 0, 0, 0, 6, 4, 4, 2, 2, 2, 2, 0, 0, 0, 0, 0, 0, 0, 0,
2, 8, 6, 6, 4, 4, 4, 4, 2, 2, 2, 2, 2, 2, 2, 2, 2, 8, 6, 6, 4, 4, 4, 4, 2, 2, 2, 2, 2, 2, 2, 2,
0, 6, 4, 4, 2, 2, 2, 2, 0, 0, 0, 0, 0, 0, 0, 0, 0, 6, 4, 4, 2, 2, 2, 2, 0, 0, 0, 0, 0, 0, 0, 0],
[0, 8, 6, 6, 4, 4, 4, 4, 2, 2, 2, 2, 2, 2, 2, 2, 0, 0, 0, 0, 0, 0, 0, 0, 0, 0, 0, 0, 0, 0, 0, 0,
0, 8, 6, 6, 4, 4, 4, 4, 2, 2, 2, 2, 2, 2, 2, 2, 0, 0, 0, 0, 0, 0, 0, 0, 0, 0, 0, 0, 0, 0, 0, 0,
0, 8, 6, 6, 4, 4, 4, 4, 2, 2, 2, 2, 2, 2, 2, 2, 0, 0, 0, 0, 0, 0, 0, 0, 0, 0, 0, 0, 0, 0, 0, 0,
0, 8, 6, 6, 4, 4, 4, 4, 2, 2, 2, 2, 2, 2, 2, 2, 0, 0, 0, 0, 0, 0, 0, 0, 0, 0, 0, 0, 0, 0, 0, 0,
2, 10, 8, 8, 6, 6, 6, 6, 4, 4, 4, 4, 4, 4, 4, 4, 2, 2, 2, 2, 2, 2, 2, 2, 2, 2, 2, 2, 2, 2, 2, 2,
2, 10, 8, 8, 6, 6, 6, 6, 4, 4, 4, 4, 4, 4, 4, 4, 2, 2, 2, 2, 2, 2, 2, 2, 2, 2, 2, 2, 2, 2, 2, 2,
0, 8, 6, 6, 4, 4, 4, 4, 2, 2, 2, 2, 2, 2, 2, 2, 0, 0, 0, 0, 0, 0, 0, 0, 0, 0, 0, 0, 0, 0, 0, 0,
0, 8, 6, 6, 4, 4, 4, 4, 2, 2, 2, 2, 2, 2, 2, 2, 0, 0, 0, 0, 0, 0, 0, 0, 0, 0, 0, 0, 0, 0, 0, 0],
[0, 10, 8, 8, 6, 6, 6, 6, 4, 4, 4, 4, 4, 4, 4, 4, 2, 2, 2, 2, 2, 2, 2, 2, 2, 2, 2, 2, 2, 2, 2, 2,
0, 0, 0, 0, 0, 0, 0, 0, 0, 0, 0, 0, 0, 0, 0, 0, 0, 0, 0, 0, 0, 0, 0, 0, 0, 0, 0, 0, 0, 0, 0, 0,
0, 10, 8, 8, 6, 6, 6, 6, 4, 4, 4, 4, 4, 4, 4, 4, 2, 2, 2, 2, 2, 2, 2, 2, 2, 2, 2, 2, 2, 2, 2, 2,
0, 0, 0, 0, 0, 0, 0, 0, 0, 0, 0, 0, 0, 0, 0, 0, 0, 0, 0, 0, 0, 0, 0, 0, 0, 0, 0, 0, 0, 0, 0, 0,
0, 10, 8, 8, 6, 6, 6, 6, 4, 4, 4, 4, 4, 4, 4, 4, 2, 2, 2, 2, 2, 2, 2, 2, 2, 2, 2, 2, 2, 2, 2, 2,
0, 0, 0, 0, 0, 0, 0, 0, 0, 0, 0, 0, 0, 0, 0, 0, 0, 0, 0, 0, 0, 0, 0, 0, 0, 0, 0, 0, 0, 0, 0, 0,
0, 10, 8, 8, 6, 6, 6, 6, 4, 4, 4, 4, 4, 4, 4, 4, 2, 2, 2, 2, 2, 2, 2, 2, 2, 2, 2, 2, 2, 2, 2, 2,
0, 0, 0, 0, 0, 0, 0, 0, 0, 0, 0, 0, 0, 0, 0, 0, 0, 0, 0, 0, 0, 0, 0, 0, 0, 0, 0, 0, 0, 0, 0, 0],
[0, 12, 10, 10, 8, 8, 8, 8, 6, 6, 6, 6, 6, 6, 6, 6, 4, 4, 4, 4, 4, 4, 4, 4, 4, 4, 4, 4, 4, 4, 4, 4,
2, 2, 2, 2, 2, 2, 2, 2, 2, 2, 2, 2, 2, 2, 2, 2, 2, 2, 2, 2, 2, 2, 2, 2, 2, 2, 2, 2, 2, 2, 2, 2,
0, 0, 0, 0, 0, 0, 0, 0, 0, 0, 0, 0, 0, 0, 0, 0, 0, 0, 0, 0, 0, 0, 0, 0, 0, 0, 0, 0, 0, 0, 0, 0,
0, 0, 0, 0, 0, 0, 0, 0, 0, 0, 0, 0, 0, 0, 0, 0, 0, 0, 0, 0, 0, 0, 0, 0, 0, 0, 0, 0, 0, 0, 0, 0,
0, 12, 10, 10, 8, 8, 8, 8, 6, 6, 6, 6, 6, 6, 6, 6, 4, 4, 4, 4, 4, 4, 4, 4, 4, 4, 4, 4, 4, 4, 4, 4,
2, 2, 2, 2, 2, 2, 2, 2, 2, 2, 2, 2, 2, 2, 2, 2, 2, 2, 2, 2, 2, 2, 2, 2, 2, 2, 2, 2, 2, 2, 2, 2,
0, 0, 0, 0, 0, 0, 0, 0, 0, 0, 0, 0, 0, 0, 0, 0, 0, 0, 0, 0, 0, 0, 0, 0, 0, 0, 0, 0, 0, 0, 0, 0,
0, 0, 0, 0, 0, 0, 0, 0, 0, 0, 0, 0, 0, 0, 0, 0, 0, 0, 0, 0, 0, 0, 0, 0, 0, 0, 0, 0, 0, 0, 0, 0]
]

/-- Entry d of row pos of maskr (0 when out of range; the source indexes it
only with pos in 0..63 and d in 0..3). -/
def maskrAt (pos d : Nat) : Nat := (maskr.getD pos []).getD d 0

/-- Entry l of row pos of the flattened maskl (l in 0..3 selects
maskl[pos][l / 2].ull[l % 2], stored complemented like the source constants). -/
def masklAt (pos l : Nat) : Nat := (maskl.getD pos []).getD l 0

/-- Lane l of mask_d_v[pos]. -/
def mdvAt (pos l : Nat) : Nat := (mask_d_v.getD pos []).getD l 0

/-- Lane l of mask_d[pos]. -/
def mdAt (pos l : Nat) : Nat := (mask_d.getD pos []).getD l 0

/-- COUNT_FLIP[k][i] (0 when out of range; in-bounds use is proved where the
source relies on it). -/
def cfAt (k i : Nat) : Nat := (COUNT_FLIP.getD k []).getD i 0

/-- Low-direction (toward bit 0) ray contribution of flip: the first
non-opponent cell of the masked ray is located with a leading-zero count, and
the flipped run is recovered by wrapping negation, exactly as the four scalar
outflankr lines of the source do. The C expression 0x8000000000000000 >> 64
that arises when the whole ray is opponent-occupied is undefined behaviour
which the compiled x86 shr resolves by masking the count, hence the explicit
% 64; the contribution is 0 in that case under either reading because the
final intersection with the ray mask is empty. -/
def flipLow (mr P O : Nat) : Nat :=
  mul64 (neg64 ((2 ^ 63 >>> (lzcnt64 (c64 O &&& mr) % 64)) &&& P)) 2 &&& mr

/-- Per-lane rendering of the flipmask SSE helper of the source: comparing the
32-bit halves of a lane against their swap yields all-ones when the halves
coincide (in particular on the lane 0) and 0 otherwise (in particular on any
single-bit lane). -/
def flipmaskLane (x : Nat) : Nat := if x % 2 ^ 32 = x / 2 ^ 32 then M64 - 1 else 0

/-- High-direction ray contribution: one 64-bit lane of the vector part of the
source flip; mlc is the complemented ray mask as stored in maskl, and
subtracting minusone is the source's way of adding 1. -/
def flipHigh (mlc P O : Nat) : Nat :=
  let outflank := c64 mlc &&& sub64 (O ||| mlc) (M64 - 1) &&& P
  c64 mlc &&& sub64 outflank (sub64 (flipmaskLane outflank) (M64 - 1))

/-- Flip computation transcribed from the source flip: four scalar
low-direction rays through maskr OR four high-direction lanes through maskl
(the final _mm_shuffle_epi32 combination in the source implements exactly this
OR of the four lanes). -/
def flip (pos P O : Nat) : Nat :=
  flipLow (maskrAt pos 0) P O ||| flipLow (maskrAt pos 1) P O |||
  flipLow (maskrAt pos 2) P O ||| flipLow (maskrAt pos 3) P O |||
  flipHigh (masklAt pos 0) P O ||| flipHigh (masklAt pos 1) P O |||
  flipHigh (masklAt pos 2) P O ||| flipHigh (masklAt pos 3) P O

/-- Bit j of the result is set when byte j of v is zero: the composition of a
bytewise compare-equal-to-zero with movemask_epi8, taken per 8-byte lane. -/
def zeroBytes (v : Nat) : Nat → Nat
  | 0 => 0
  | j + 1 => zeroBytes v j + if v / 2 ^ (8 * j) % 2 ^ 8 = 0 then 2 ^ j else 0

/-- Bit j of the result is the top bit of byte j of v (movemask_epi8 on one
8-byte lane). -/
def topBytes (v : Nat) : Nat → Nat
  | 0 => 0
  | j + 1 => topBytes v j + if v.testBit (8 * j + 7) then 2 ^ j else 0

/-- Value t computed by the AVX2 path of last_flip: the complemented 32-byte
movemask of the bytewise zero test of broadcast(P) AND mask_d_v[pos], written
lane by lane (bits 8j..8j+7 of the mask come from lane j). -/
def lastFlipT (pos P : Nat) : Nat :=
  0xFFFFFFFF ^^^ (zeroBytes (P &&& mdvAt pos 0) 8 + 2 ^ 8 * zeroBytes (P &&& mdvAt pos 1) 8 +
    2 ^ 16 * zeroBytes (P &&& mdvAt pos 2) 8 + 2 ^ 24 * zeroBytes (P &&& mdvAt pos 3) 8)

/-- Terminal flip counter, AVX2 strategy of the source last_flip: four
COUNT_FLIP lookups (column from t >> 16, the two diagonals from the low bytes
of t, the row from the y-th byte of P) accumulated in an unsigned char. -/
def last_flip (pos P : Nat) : Nat :=
  let x := pos % 8
  let y := pos / 8
  let t := lastFlipT pos P
  let n0 := cfAt y (t >>> 16)
  let n1 := (n0 + cfAt y ((t >>> 8) % 2 ^ 8)) % 2 ^ 8
  let n2 := (n1 + cfAt y (t % 2 ^ 8)) % 2 ^ 8
  (n2 + cfAt x ((P >>> (y * 8)) % 2 ^ 8)) % 2 ^ 8

/-- Value t computed by the SSE path of last_flip: as lastFlipT but over the
two mask_d lanes only (the high 16 bits of the complemented 32-bit int are
never consumed). -/
def lastFlipTSse (pos P : Nat) : Nat :=
  0xFFFFFFFF ^^^ (zeroBytes (P &&& mdAt pos 0) 8 + 2 ^ 8 * zeroBytes (P &&& mdAt pos 1) 8)

/-- Terminal flip counter, SSE strategy of the source last_flip: the column
pattern is read off through a left shift by x XOR 7 and a 16-byte movemask
(the high lane of the register is 0), the diagonals through mask_d. -/
def last_flip_sse (pos P : Nat) : Nat :=
  let x := pos % 8
  let y := pos / 8
  let n0 := cfAt y (topBytes ((P <<< (x ^^^ 7)) % M64) 8 + 2 ^ 8 * topBytes ((0 <<< (x ^^^ 7)) % M64) 8)
  let t := lastFlipTSse pos P
  let n1 := (n0 + cfAt y ((t >>> 8) % 2 ^ 8)) % 2 ^ 8
  let n2 := (n1 + cfAt y (t % 2 ^ 8)) % 2 ^ 8
  (n2 + cfAt x ((P >>> (y * 8)) % 2 ^ 8)) % 2 ^ 8

/-- Cells of the ray leaving board coordinates (x, y) in direction (dx, dy),
nearest cell first, stopping at the board edge; the fuel bounds the walk. -/
def rayCellsAux (x y dx dy : Int) : Nat → List Nat
  | 0 => []
  | fuel + 1 =>
    let x2 := x + dx
    let y2 := y + dy
    if 0 ≤ x2 ∧ x2 < 8 ∧ 0 ≤ y2 ∧ y2 < 8 then
      (y2 * 8 + x2).toNat :: rayCellsAux x2 y2 dx dy fuel
    else []

/-- Cells of the ray from square pos in direction d, nearest first. -/
def rayCells (pos : Nat) (d : Int × Int) : List Nat :=
  rayCellsAux ((pos % 8 : Nat) : Int) ((pos / 8 : Nat) : Int) d.1 d.2 7

/-- Does a ray outflank: walk its cells nearest first through opponent discs
and report whether the first non-opponent cell exists and holds a player disc. -/
def outflanked (P O : Nat) : List Nat → Bool
  | [] => false
  | c :: rest => if O.testBit c then outflanked P O rest else P.testBit c

/-- Bits of the contiguous opponent run adjacent to the square along a ray. -/
def runBits (O : Nat) : List Nat → Nat
  | [] => 0
  | c :: rest => if O.testBit c then 2 ^ c ||| runBits O rest else 0

/-- Contribution of one ray according to the specification: the adjacent
opponent run, included exactly when the run is terminated by a player disc. -/
def rayFlip (P O : Nat) (cells : List Nat) : Nat :=
  if outflanked P O cells then runBits O cells else 0

/-- Specification-level flip: the union over the 8 rays from the square of
their contributions. -/
def specFlip (pos P O : Nat) : Nat :=
  rayFlip P O (rayCells pos (-1, 0)) ||| rayFlip P O (rayCells pos (1, -1)) |||
  rayFlip P O (rayCells pos (0, -1)) ||| rayFlip P O (rayCells pos (-1, -1)) |||
  rayFlip P O (rayCells pos (1, 0)) ||| rayFlip P O (rayCells pos (-1, 1)) |||
  rayFlip P O (rayCells pos (0, 1)) ||| rayFlip P O (rayCells pos (1, 1))

/-- Scan positions going upward from j: j, j+1, ... for the given count. -/
def upFrom : Nat → Nat → List Nat
  | _, 0 => []
  | j, f + 1 => j :: upFrom (j + 1) f

/-- Scan positions going downward from j: j, j-1, ... for the given count. -/
def downFrom : Nat → Nat → List Nat
  | _, 0 => []
  | j, f + 1 => j :: downFrom (j - 1) f

/-- Does a directional scan of the 8-bit pattern hit a player bit before the
line boundary. -/
def scanHit (p : Nat) : List Nat → Bool
  | [] => false
  | j :: rest => if p.testBit j then true else scanHit p rest

/-- Length of the leading zero run along the scanned positions. -/
def scanRun (p : Nat) : List Nat → Nat
  | [] => 0
  | j :: rest => if p.testBit j then 0 else scanRun p rest + 1

/-- Count contributed by one scan direction: the length of the adjacent zero
run when it is terminated by a one bit before the boundary, else 0. -/
def scanCount (p : Nat) (js : List Nat) : Nat :=
  if scanHit p js then scanRun p js else 0

/-- Generation rule of the COUNT_FLIP table as worded by the specification:
twice the sum over both directions of the terminated zero runs adjacent to
line position k in the 8-bit pattern p. -/
def specCount (k p : Nat) : Nat :=
  2 * (scanCount p (upFrom (k + 1) (7 - k)) + scanCount p (downFrom (k - 1) k))

/-- Fuel-bounded population count; with fuel 64 it is the bit_count primitive
on 64-bit words. -/
def bcAux : Nat → Nat → Nat
  | 0, _ => 0
  | f + 1, x => x % 2 + bcAux f (x / 2)

/-- Population count of a 64-bit word. -/
def bit_count (x : Nat) : Nat := bcAux 64 x

/-- Reversal of the low n bits of x (bit i goes to bit n-1-i). -/
def revAux : Nat → Nat → Nat
  | 0, _ => 0
  | n + 1, x => x % 2 * 2 ^ n + revAux n (x / 2)

/-- Full 64-bit bit reversal: the board symmetry transform T of the symmetry
property of the specification. -/
def rev64 (x : Nat) : Nat := revAux 64 x

/-- Bitboard with exactly the bits of the listed squares. -/
def maskOf : List Nat → Nat
  | [] => 0
  | c :: r => 2 ^ c ||| maskOf r

/-- Boolean pairwise check: r holds between every earlier and every later
element of the list. -/
def pairwiseB (r : Nat → Nat → Bool) : List Nat → Bool
  | [] => true
  | c :: rest => rest.all (r c) && pairwiseB r rest

/-! Basic facts about 64-bit words. -/

theorem M64_pos : 0 < M64 := Nat.pos_pow_of_pos 64 (by omega)

theorem M64_def : M64 = 2 ^ 64 := rfl

theorem testBit_ge64 {x : Nat} (hx : x < M64) {i : Nat} (hi : 64 ≤ i) : x.testBit i = false := by
  exact Nat.testBit_lt_two_pow (lt_of_lt_of_le hx (Nat.pow_le_pow_right (by omega) hi))

theorem testBit_c64 (x i : Nat) :
    (c64 x).testBit i = (decide (i < 64) && !(x % M64).testBit i) := by
  have hlt : x % M64 < 2 ^ 64 := M64_def ▸ Nat.mod_lt _ M64_pos
  unfold c64
  rw [M64_def, Nat.testBit_xor, Nat.testBit_two_pow_sub_one]
  by_cases h : i < 64
  · simp [h]
  · have h2 : Nat.testBit (x % 2 ^ 64) i = false :=
      Nat.testBit_lt_two_pow (lt_of_lt_of_le hlt (Nat.pow_le_pow_right (by omega) (by omega)))
    rw [h2]
    simp [h]

theorem testBit_c64_lt {x : Nat} (hx : x < M64) (i : Nat) :
    (c64 x).testBit i = (decide (i < 64) && !x.testBit i) := by
  rw [testBit_c64, Nat.mod_eq_of_lt hx]

theorem c64_lt (x : Nat) : c64 x < M64 := by
  unfold c64
  exact Nat.xor_lt_two_pow (Nat.sub_lt M64_pos (by omega)) (Nat.mod_lt _ M64_pos)

theorem c64_c64 {x : Nat} (hx : x < M64) : c64 (c64 x) = x := by
  apply Nat.eq_of_testBit_eq
  intro i
  rw [testBit_c64_lt (c64_lt x), testBit_c64_lt hx]
  by_cases h : i < 64
  · simp [h]
  · simp [h, testBit_ge64 hx (by omega : 64 ≤ i)]

theorem land_two_pow_left (c P : Nat) :
    2 ^ c &&& P = if P.testBit c then 2 ^ c else 0 := by
  apply Nat.eq_of_testBit_eq
  intro i
  rw [Nat.testBit_land, Nat.testBit_two_pow]
  by_cases hp : P.testBit c
  · rw [if_pos hp, Nat.testBit_two_pow]
    by_cases h : c = i
    · subst h; simp [hp]
    · simp [h]
  · rw [if_neg hp, Nat.zero_testBit]
    by_cases h : c = i
    · subst h; simp [hp]
    · simp [h]

theorem two_pow_le_of_testBit {X g : Nat} (hg : X.testBit g = true) : 2 ^ g ≤ X := by
  rw [Nat.testBit_to_div_mod] at hg
  have h1 : 1 ≤ X / 2 ^ g := by
    rcases Nat.eq_zero_or_pos (X / 2 ^ g) with h | h
    · rw [h] at hg; simp at hg
    · exact h
  calc 2 ^ g = 1 * 2 ^ g := by ring
  _ ≤ X / 2 ^ g * 2 ^ g := Nat.mul_le_mul_right _ h1
  _ ≤ X := Nat.div_mul_le_self _ _

/-! Specification of the fuel-bounded binary length. -/

theorem blen_zero_val (f : Nat) : blen f 0 = 0 := by cases f <;> simp [blen]

theorem blen_le : ∀ f x, blen f x ≤ f
  | 0, _ => Nat.le_refl 0
  | f + 1, x => by
    by_cases h : x = 0
    · simp [blen, h]
    · simp only [blen, if_neg h]
      exact Nat.succ_le_succ (blen_le f (x / 2))

theorem blen_spec : ∀ f x, x ≠ 0 → x < 2 ^ f →
    2 ^ (blen f x - 1) ≤ x ∧ x < 2 ^ blen f x ∧ 1 ≤ blen f x
  | 0, x, hx, hb => absurd (Nat.lt_one_iff.mp hb) hx
  | f + 1, x, hx, hb => by
    simp only [blen, if_neg hx]
    by_cases h2 : x / 2 = 0
    · have hx1 : x = 1 := by omega
      subst hx1
      simp [blen_zero_val]
    · have hdb : x / 2 < 2 ^ f := by
        have := Nat.pow_succ 2 f
        omega
      obtain ⟨hlo, hhi, hpos⟩ := blen_spec f (x / 2) h2 hdb
      refine ⟨?_, ?_, by omega⟩
      · have hb1 : blen f (x / 2) + 1 - 1 = blen f (x / 2) - 1 + 1 := by omega
        rw [hb1, Nat.pow_succ]
        omega
      · rw [Nat.pow_succ]
        omega

theorem blen_of_top {X g : Nat} (hX : X < M64) (hg : X.testBit g = true)
    (hup : ∀ i, g < i → X.testBit i = false) : blen 64 X = g + 1 := by
  have hle : 2 ^ g ≤ X := two_pow_le_of_testBit hg
  have hlt : X < 2 ^ (g + 1) := Nat.lt_pow_two_of_testBit X fun i hi => hup i (by omega)
  have hx0 : X ≠ 0 := by
    have := Nat.pos_pow_of_pos g (show 0 < 2 by omega)
    omega
  obtain ⟨hlo, hhi, hpos⟩ := blen_spec 64 X hx0 hX
  set b := blen 64 X with hb
  have h1 : g < b := by
    by_contra h
    push_neg at h
    have : 2 ^ b ≤ 2 ^ g := Nat.pow_le_pow_right (by omega) h
    omega
  have h2 : b - 1 ≤ g := by
    by_contra h
    push_neg at h
    have : 2 ^ (g + 1) ≤ 2 ^ (b - 1) := Nat.pow_le_pow_right (by omega) h
    omega
  omega

/-! Bit patterns of wrap-around differences of powers of two. -/

theorem testBit_M64_sub_two_pow {c : Nat} (hc : c ≤ 64) (i : Nat) :
    (M64 - 2 ^ c).testBit i = (decide (c ≤ i) && decide (i < 64)) := by
  have h1 : 2 ^ c - 1 < 2 ^ 64 := by
    have : 2 ^ c ≤ 2 ^ 64 := Nat.pow_le_pow_right (by omega) hc
    have : 0 < 2 ^ c := Nat.pos_pow_of_pos c (by omega)
    omega
  have h2 : M64 - 2 ^ c = 2 ^ 64 - (2 ^ c - 1 + 1) := by
    have : 0 < 2 ^ c := Nat.pos_pow_of_pos c (by omega)
    simp [M64]
    omega
  rw [h2, Nat.testBit_two_pow_sub_succ h1, Nat.testBit_two_pow_sub_one]
  by_cases ha : i < 64 <;> by_cases hb : c ≤ i <;> simp [ha, hb] <;> omega

theorem mul64_neg64_two_pow {g : Nat} (hg : g ≤ 63) :
    mul64 (neg64 (2 ^ g)) 2 = M64 - 2 ^ (g + 1) := by
  have h1 : 2 ^ g < M64 := by
    have : 2 ^ g ≤ 2 ^ 63 := Nat.pow_le_pow_right (by omega) hg
    have : (2 : Nat) ^ 63 < 2 ^ 64 := by norm_num
    simp only [M64]
    omega
  have h2 : 2 ^ (g + 1) = 2 * 2 ^ g := by ring
  unfold neg64 mul64
  rw [Nat.mod_eq_of_lt h1]
  have h3 : M64 - 2 ^ g < M64 := by
    have : 0 < 2 ^ g := Nat.pos_pow_of_pos g (by omega)
    omega
  rw [Nat.mod_eq_of_lt h3]
  have h4 : (M64 - 2 ^ g) * 2 = M64 + (M64 - 2 ^ (g + 1)) := by
    have h5 : 2 ^ (g + 1) ≤ M64 := by
      have : g + 1 ≤ 64 := by omega
      exact Nat.pow_le_pow_right (by omega) this
    omega
  rw [h4, Nat.add_mod_left, Nat.mod_eq_of_lt (by omega)]

theorem mul64_neg64_zero : mul64 (neg64 0) 2 = 0 := by
  unfold neg64 mul64
  simp

theorem testBit_add_mul_two_pow {a : Nat} {n : Nat} (ha : a < 2 ^ n) (b i : Nat) :
    (a + 2 ^ n * b).testBit i = if i < n then a.testBit i else b.testBit (i - n) := by
  by_cases h : i < n
  · rw [if_pos h]
    rw [Nat.testBit_to_div_mod, Nat.testBit_to_div_mod, decide_eq_decide]
    have hni : n - i + i = n := by omega
    have hdvd : 2 ^ n * b = 2 ^ (n - i) * b * 2 ^ i := by
      rw [Nat.mul_right_comm, ← Nat.pow_add, hni]
    rw [hdvd, Nat.add_mul_div_right _ _ (Nat.pos_pow_of_pos i (by omega))]
    have heven : 2 ∣ 2 ^ (n - i) * b := by
      have hni : n - i ≠ 0 := by omega
      obtain ⟨k, hk⟩ := Nat.exists_eq_add_of_le (Nat.one_le_iff_ne_zero.mpr hni)
      rw [hk, Nat.pow_add, Nat.pow_one, Nat.mul_assoc]
      exact dvd_mul_right 2 _
    obtain ⟨m, hm⟩ := heven
    rw [hm]
    omega
  · rw [if_neg h]
    rw [Nat.testBit_to_div_mod, Nat.testBit_to_div_mod, decide_eq_decide]
    have hsplit : (a + 2 ^ n * b) / 2 ^ i = b / 2 ^ (i - n) := by
      have hin : 2 ^ i = 2 ^ n * 2 ^ (i - n) := by
        rw [← Nat.pow_add]
        congr 1
        omega
      rw [hin, ← Nat.div_div_eq_div_mul]
      have hq : (a + 2 ^ n * b) / 2 ^ n = b := by
        rw [Nat.add_mul_div_left _ _ (Nat.pos_pow_of_pos n (by omega))]
        rw [Nat.div_eq_of_lt ha]
        omega
      rw [hq]
    rw [hsplit]

/-! Facts relating mask bitboards to cell lists. -/

theorem outflanked_nil (P O : Nat) : outflanked P O [] = false := rfl

theorem runBits_nil (O : Nat) : runBits O [] = 0 := rfl

theorem outflanked_cons (P O c : Nat) (rest : List Nat) :
    outflanked P O (c :: rest) = if O.testBit c then outflanked P O rest else P.testBit c := rfl

theorem runBits_cons (O c : Nat) (rest : List Nat) :
    runBits O (c :: rest) = if O.testBit c then 2 ^ c ||| runBits O rest else 0 := rfl

theorem testBit_maskOf (l : List Nat) (i : Nat) :
    (maskOf l).testBit i = true ↔ i ∈ l := by
  induction l with
  | nil => simp [maskOf]
  | cons c r ih =>
    show (2 ^ c ||| maskOf r).testBit i = true ↔ _
    rw [Nat.testBit_lor, Bool.or_eq_true, Nat.testBit_two_pow, List.mem_cons, decide_eq_true_eq, ih]
    constructor
    · rintro (h | h)
      · exact Or.inl h.symm
      · exact Or.inr h
    · rintro (h | h)
      · exact Or.inl h.symm
      · exact Or.inr h

theorem maskOf_lt {l : List Nat} (hb : ∀ c ∈ l, c < 64) : maskOf l < M64 := by
  rw [M64_def]
  apply Nat.lt_pow_two_of_testBit
  intro i hi
  cases h : (maskOf l).testBit i
  · rfl
  · exact absurd (hb i ((testBit_maskOf l i).mp h)) (by omega)

theorem pairwiseB_cons {r : Nat → Nat → Bool} {c : Nat} {rest : List Nat}
    (h : pairwiseB r (c :: rest) = true) :
    (∀ b ∈ rest, r c b = true) ∧ pairwiseB r rest = true := by
  simp only [pairwiseB, Bool.and_eq_true, List.all_eq_true] at h
  exact h

theorem land_lor_right (a b m : Nat) : (a ||| b) &&& m = (a &&& m) ||| (b &&& m) := by
  apply Nat.eq_of_testBit_eq
  intro i
  rw [Nat.testBit_land, Nat.testBit_lor, Nat.testBit_lor, Nat.testBit_land, Nat.testBit_land]
  cases a.testBit i <;> cases b.testBit i <;> cases m.testBit i <;> rfl

theorem lor_eq_zero_iff {a b : Nat} : a ||| b = 0 ↔ a = 0 ∧ b = 0 := by
  constructor
  · intro h
    have hbit : ∀ i, a.testBit i = false ∧ b.testBit i = false := by
      intro i
      have h2 := congrArg (fun t => Nat.testBit t i) h
      simp only [Nat.testBit_lor, Nat.zero_testBit, Bool.or_eq_false_iff] at h2
      exact h2
    constructor <;> (apply Nat.eq_of_testBit_eq; intro i; rw [Nat.zero_testBit])
    · exact (hbit i).1
    · exact (hbit i).2
  · rintro ⟨h1, h2⟩
    rw [h1, h2]
    rfl

/-! Characterization of the specification ray walk along low (decreasing) rays:
the run and outflank test are determined by the top bit of the set of
non-opponent ray cells. -/

theorem outflanked_of_empty_opp (P O : Nat) (cells : List Nat)
    (hb : ∀ c ∈ cells, c < 64) (hO : O < M64)
    (hX : maskOf cells &&& c64 O = 0) : outflanked P O cells = false := by
  induction cells with
  | nil => rfl
  | cons c rest ih =>
    have hc : c < 64 := hb c (by simp)
    have hsplit : (2 ^ c &&& c64 O) = 0 ∧ maskOf rest &&& c64 O = 0 := by
      have hm : maskOf (c :: rest) = 2 ^ c ||| maskOf rest := rfl
      rw [hm, land_lor_right] at hX
      exact lor_eq_zero_iff.mp hX
    have hOc : O.testBit c = true := by
      cases hoc : O.testBit c
      · exfalso
        have h1 : (2 ^ c &&& c64 O).testBit c = true := by
          rw [Nat.testBit_land, Nat.testBit_two_pow_self, testBit_c64_lt hO, hoc]
          simp [hc]
        rw [hsplit.1] at h1
        simp at h1
      · rfl
    rw [outflanked_cons, hOc, if_pos rfl]
    exact ih (fun b hbm => hb b (List.mem_cons_of_mem c hbm)) hsplit.2

theorem lowCharAux (P O : Nat) (cells : List Nat) (g : Nat)
    (hpw : pairwiseB (fun a b => decide (b < a)) cells = true)
    (hb : ∀ c ∈ cells, c < 64) (hO : O < M64)
    (hg : (maskOf cells &&& c64 O).testBit g = true)
    (hup : ∀ i, g < i → (maskOf cells &&& c64 O).testBit i = false) :
    outflanked P O cells = P.testBit g ∧
      runBits O cells = maskOf cells &&& (M64 - 2 ^ (g + 1)) := by
  induction cells with
  | nil =>
    exfalso
    have : maskOf [] &&& c64 O = 0 := by simp [maskOf]
    rw [this] at hg
    simp at hg
  | cons c rest ih =>
    have hc : c < 64 := hb c (by simp)
    have hrest_lt : ∀ b ∈ rest, b < c := by
      intro b hbm
      have := (pairwiseB_cons hpw).1 b hbm
      simpa using this
    have hmask : maskOf (c :: rest) = 2 ^ c ||| maskOf rest := rfl
    have hXsplit : maskOf (c :: rest) &&& c64 O =
        (2 ^ c &&& c64 O) ||| (maskOf rest &&& c64 O) := by
      rw [hmask, land_lor_right]
    cases hOc : O.testBit c with
    | true =>
      have hzero : 2 ^ c &&& c64 O = 0 := by
        apply Nat.eq_of_testBit_eq
        intro i
        rw [Nat.testBit_land, Nat.testBit_two_pow, testBit_c64_lt hO, Nat.zero_testBit]
        by_cases hic : c = i
        · subst hic
          rw [hOc]
          simp
        · simp [hic]
      have hXeq : maskOf (c :: rest) &&& c64 O = maskOf rest &&& c64 O := by
        rw [hXsplit, hzero, Nat.zero_or]
      rw [hXeq] at hg hup
      have hgc : g < c := by
        have hgm : g ∈ rest := by
          have h1 : (maskOf rest).testBit g = true := by
            have := hg
            rw [Nat.testBit_land, Bool.and_eq_true] at this
            exact this.1
          exact (testBit_maskOf _ _).mp h1
        exact hrest_lt g hgm
      obtain ⟨ih1, ih2⟩ := ih (pairwiseB_cons hpw).2
        (fun b hbm => hb b (List.mem_cons_of_mem c hbm)) hg hup
      constructor
      · rw [outflanked_cons, hOc, if_pos rfl]
        exact ih1
      · rw [runBits_cons, hOc, if_pos rfl]
        rw [ih2, hmask, land_lor_right]
        have h2c : 2 ^ c &&& (M64 - 2 ^ (g + 1)) = 2 ^ c := by
          rw [land_two_pow_left, testBit_M64_sub_two_pow (by omega)]
          rw [decide_eq_true (by omega : g + 1 ≤ c), decide_eq_true (by omega : c < 64)]
          rfl
        rw [h2c]
    | false =>
      have htwoc : 2 ^ c &&& c64 O = 2 ^ c := by
        rw [land_two_pow_left, testBit_c64_lt hO, hOc]
        simp [hc]
      have hXeq : maskOf (c :: rest) &&& c64 O = 2 ^ c ||| (maskOf rest &&& c64 O) := by
        rw [hXsplit, htwoc]
      have hXc : (maskOf (c :: rest) &&& c64 O).testBit c = true := by
        rw [hXeq, Nat.testBit_lor, Nat.testBit_two_pow_self]
        rfl
      have hcg : c ≤ g := by
        by_contra hlt
        push_neg at hlt
        rw [hup c hlt] at hXc
        exact Bool.false_ne_true hXc
      have hgc : g = c := by
        rcases Nat.lt_or_ge g c with h | h
        · omega
        · rw [hXeq, Nat.testBit_lor, Bool.or_eq_true] at hg
          rcases hg with h1 | h1
          · rw [Nat.testBit_two_pow] at h1
            simp only [decide_eq_true_eq] at h1
            omega
          · have hgm : g ∈ rest := by
              rw [Nat.testBit_land, Bool.and_eq_true] at h1
              exact (testBit_maskOf _ _).mp h1.1
            have := hrest_lt g hgm
            omega
      constructor
      · rw [outflanked_cons, hOc, if_neg Bool.false_ne_true, hgc]
      · rw [runBits_cons, hOc, if_neg Bool.false_ne_true, hgc]
        apply Nat.eq_of_testBit_eq
        intro i
        rw [Nat.zero_testBit, Nat.testBit_land]
        cases hmi : (maskOf (c :: rest)).testBit i
        · rfl
        · have him : i ∈ c :: rest := (testBit_maskOf _ _).mp hmi
          have hile : i ≤ c := by
            rcases List.mem_cons.mp him with h | h
            · omega
            · exact Nat.le_of_lt (hrest_lt i h)
          rw [testBit_M64_sub_two_pow (by omega)]
          rw [decide_eq_false (by omega : ¬(c + 1 ≤ i))]
          rfl

/-! Equivalence of the scalar low-direction algorithm with the ray walk. -/

theorem rayFlip_eq_ite (P O : Nat) (cells : List Nat) :
    rayFlip P O cells = if outflanked P O cells then runBits O cells else 0 := rfl

theorem flipLow_unfold (mr P O : Nat) :
    flipLow mr P O =
      mul64 (neg64 ((2 ^ 63 >>> (lzcnt64 (c64 O &&& mr) % 64)) &&& P)) 2 &&& mr := rfl

theorem flipLow_eq (P O : Nat) (cells : List Nat)
    (hpw : pairwiseB (fun a b => decide (b < a)) cells = true)
    (hb : ∀ c ∈ cells, c < 64) (hO : O < M64) :
    flipLow (maskOf cells) P O = rayFlip P O cells := by
  have hM : maskOf cells < M64 := maskOf_lt hb
  have hXlt : c64 O &&& maskOf cells < M64 := M64_def ▸ Nat.and_lt_two_pow _ (M64_def ▸ hM)
  by_cases hX : c64 O &&& maskOf cells = 0
  · rw [flipLow_unfold, hX]
    have hout : outflanked P O cells = false :=
      outflanked_of_empty_opp P O cells hb hO (by rw [Nat.land_comm]; exact hX)
    have hl : lzcnt64 0 % 64 = 0 := by decide
    rw [hl, Nat.shiftRight_zero, land_two_pow_left]
    cases hP63 : P.testBit 63
    · rw [if_neg Bool.false_ne_true, mul64_neg64_zero, Nat.zero_and]
      rw [rayFlip_eq_ite, hout, if_neg Bool.false_ne_true]
    · rw [if_pos rfl]
      have hz : mul64 (neg64 (2 ^ 63)) 2 = 0 := by
        rw [mul64_neg64_two_pow (by omega), M64_def]
        omega
      rw [hz, Nat.zero_and, rayFlip_eq_ite, hout, if_neg Bool.false_ne_true]
  · obtain ⟨hlo, hhi, hpos⟩ := blen_spec 64 _ hX (M64_def ▸ hXlt)
    have hble : blen 64 (c64 O &&& maskOf cells) ≤ 64 := blen_le 64 _
    set b := blen 64 (c64 O &&& maskOf cells) with hbdef
    have hbg : b - 1 + 1 = b := by omega
    have htb : (c64 O &&& maskOf cells).testBit (b - 1) = true := by
      rw [Nat.testBit_to_div_mod]
      have hdiv : (c64 O &&& maskOf cells) / 2 ^ (b - 1) = 1 := by
        apply Nat.div_eq_of_lt_le
        · omega
        · have h2 : 2 ^ b = 2 ^ (b - 1) * 2 := by
            conv_lhs => rw [← hbg]
            rw [Nat.pow_succ]
          omega
      rw [hdiv]
      rfl
    have hup : ∀ i, b - 1 < i → (c64 O &&& maskOf cells).testBit i = false := by
      intro i hi
      apply Nat.testBit_lt_two_pow
      calc c64 O &&& maskOf cells < 2 ^ b := hhi
      _ ≤ 2 ^ i := Nat.pow_le_pow_right (by omega) (by omega)
    have hblen : lzcnt64 (c64 O &&& maskOf cells) % 64 = 64 - b := by
      unfold lzcnt64
      rw [← hbdef, Nat.mod_eq_of_lt (by omega)]
    have hcand : 2 ^ 63 >>> (64 - b) = 2 ^ (b - 1) := by
      rw [Nat.shiftRight_eq_div_pow, Nat.pow_div (by omega) (by omega)]
      congr 1
      omega
    rw [flipLow_unfold, hblen, hcand, land_two_pow_left]
    obtain ⟨hout, hrun⟩ := lowCharAux P O cells (b - 1) hpw hb hO
      (by rw [Nat.land_comm]; exact htb)
      (by intro i hi; rw [Nat.land_comm]; exact hup i hi)
    cases hPg : P.testBit (b - 1)
    · rw [if_neg Bool.false_ne_true, mul64_neg64_zero, Nat.zero_and]
      rw [rayFlip_eq_ite, hout, hPg, if_neg Bool.false_ne_true]
    · rw [if_pos rfl, mul64_neg64_two_pow (by omega), rayFlip_eq_ite, hout, hPg,
        if_pos rfl, hrun, hbg, Nat.land_comm]

/-! Characterization of the ray walk along high (increasing) rays: run and
outflank test are determined by the bottom bit of the non-opponent ray cells. -/

theorem highCharAux (P O : Nat) (cells : List Nat) (g : Nat)
    (hpw : pairwiseB (fun a b => decide (a < b)) cells = true)
    (hb : ∀ c ∈ cells, c < 64) (hO : O < M64)
    (hg : (maskOf cells &&& c64 O).testBit g = true)
    (hdn : ∀ i, i < g → (maskOf cells &&& c64 O).testBit i = false) :
    outflanked P O cells = P.testBit g ∧
      runBits O cells = maskOf cells &&& (2 ^ g - 1) := by
  induction cells with
  | nil =>
    exfalso
    have hz : maskOf [] &&& c64 O = 0 := by simp [maskOf]
    rw [hz] at hg
    simp at hg
  | cons c rest ih =>
    have hc : c < 64 := hb c (by simp)
    have hrest_gt : ∀ b ∈ rest, c < b := by
      intro b hbm
      have := (pairwiseB_cons hpw).1 b hbm
      simpa using this
    have hmask : maskOf (c :: rest) = 2 ^ c ||| maskOf rest := rfl
    have hXsplit : maskOf (c :: rest) &&& c64 O =
        (2 ^ c &&& c64 O) ||| (maskOf rest &&& c64 O) := by
      rw [hmask, land_lor_right]
    cases hOc : O.testBit c with
    | true =>
      have hzero : 2 ^ c &&& c64 O = 0 := by
        apply Nat.eq_of_testBit_eq
        intro i
        rw [Nat.testBit_land, Nat.testBit_two_pow, testBit_c64_lt hO, Nat.zero_testBit]
        by_cases hic : c = i
        · subst hic
          rw [hOc]
          simp
        · simp [hic]
      have hXeq : maskOf (c :: rest) &&& c64 O = maskOf rest &&& c64 O := by
        rw [hXsplit, hzero, Nat.zero_or]
      rw [hXeq] at hg hdn
      have hgc : c < g := by
        have hgm : g ∈ rest := by
          have h1 : (maskOf rest).testBit g = true := by
            have h2 := hg
            rw [Nat.testBit_land, Bool.and_eq_true] at h2
            exact h2.1
          exact (testBit_maskOf _ _).mp h1
        exact hrest_gt g hgm
      obtain ⟨ih1, ih2⟩ := ih (pairwiseB_cons hpw).2
        (fun b hbm => hb b (List.mem_cons_of_mem c hbm)) hg hdn
      constructor
      · rw [outflanked_cons, hOc, if_pos rfl]
        exact ih1
      · rw [runBits_cons, hOc, if_pos rfl]
        rw [ih2, hmask, land_lor_right]
        have h2c : 2 ^ c &&& (2 ^ g - 1) = 2 ^ c := by
          rw [land_two_pow_left, Nat.testBit_two_pow_sub_one]
          rw [decide_eq_true (by omega : c < g)]
          rfl
        rw [h2c]
    | false =>
      have htwoc : 2 ^ c &&& c64 O = 2 ^ c := by
        rw [land_two_pow_left, testBit_c64_lt hO, hOc]
        simp [hc]
      have hXeq : maskOf (c :: rest) &&& c64 O = 2 ^ c ||| (maskOf rest &&& c64 O) := by
        rw [hXsplit, htwoc]
      have hXc : (maskOf (c :: rest) &&& c64 O).testBit c = true := by
        rw [hXeq, Nat.testBit_lor, Nat.testBit_two_pow_self]
        rfl
      have hcg : g ≤ c := by
        by_contra hlt
        push_neg at hlt
        rw [hdn c hlt] at hXc
        exact Bool.false_ne_true hXc
      have hgc : g = c := by
        rcases Nat.lt_or_ge c g with h | h
        · omega
        · rw [hXeq, Nat.testBit_lor, Bool.or_eq_true] at hg
          rcases hg with h1 | h1
          · rw [Nat.testBit_two_pow] at h1
            simp only [decide_eq_true_eq] at h1
            omega
          · have hgm : g ∈ rest := by
              rw [Nat.testBit_land, Bool.and_eq_true] at h1
              exact (testBit_maskOf _ _).mp h1.1
            have := hrest_gt g hgm
            omega
      constructor
      · rw [outflanked_cons, hOc, if_neg Bool.false_ne_true, hgc]
      · rw [runBits_cons, hOc, if_neg Bool.false_ne_true, hgc]
        apply Nat.eq_of_testBit_eq
        intro i
        rw [Nat.zero_testBit, Nat.testBit_land]
        cases hmi : (maskOf (c :: rest)).testBit i
        · rfl
        · have him : i ∈ c :: rest := (testBit_maskOf _ _).mp hmi
          have hige : c ≤ i := by
            rcases List.mem_cons.mp him with h | h
            · omega
            · exact Nat.le_of_lt (hrest_gt i h)
          rw [Nat.testBit_two_pow_sub_one]
          rw [decide_eq_false (by omega : ¬i < c)]
          rfl

/-! Bits of a wrap-around negation given the bottom set bit. -/

theorem exists_bottom_bit (X : Nat) (hX : X ≠ 0) :
    ∃ g, X.testBit g = true ∧ ∀ i, i < g → X.testBit i = false := by
  induction X using Nat.strong_induction_on with
  | _ X ih =>
    by_cases hpar : X % 2 = 1
    · exact ⟨0, by rw [Nat.testBit_zero]; simp [hpar], by omega⟩
    · have hX2 : X / 2 ≠ 0 := by omega
      obtain ⟨g, hg, hdn⟩ := ih (X / 2) (by omega) hX2
      refine ⟨g + 1, ?_, ?_⟩
      · rw [Nat.testBit_add_one]
        exact hg
      · intro i hi
        cases i with
        | zero => rw [Nat.testBit_zero]; simp [hpar]
        | succ j =>
          rw [Nat.testBit_add_one]
          exact hdn j (by omega)

theorem testBit_M64_sub_of_bottom {X g : Nat} (hXlt : X < M64) (hX0 : X ≠ 0)
    (hg : X.testBit g = true) (hdn : ∀ i, i < g → X.testBit i = false) (i : Nat) :
    (M64 - X).testBit i =
      (decide (i < 64) && (decide (i = g) || (decide (g < i) && !X.testBit i))) := by
  have hg64 : g < 64 := by
    by_contra h
    push_neg at h
    rw [testBit_ge64 hXlt h] at hg
    exact Bool.false_ne_true hg
  have hmod : X % 2 ^ g = 0 := by
    apply Nat.eq_of_testBit_eq
    intro j
    rw [Nat.testBit_mod_two_pow, Nat.zero_testBit]
    by_cases hj : j < g
    · rw [hdn j hj]
      simp
    · simp [hj]
  obtain ⟨u, hXu⟩ : ∃ u, X = 2 ^ g * u :=
    ⟨X / 2 ^ g, by have := Nat.div_add_mod X (2 ^ g); omega⟩
  have hu_odd : u % 2 = 1 := by
    have h2 := hg
    rw [Nat.testBit_to_div_mod, decide_eq_true_eq, hXu,
      Nat.mul_div_cancel_left u (Nat.pos_pow_of_pos g (by omega))] at h2
    exact h2
  have hu_pos : u ≠ 0 := by
    intro h
    rw [h, Nat.mul_zero] at hXu
    exact hX0 hXu
  have hu_lt : u < 2 ^ (64 - g) := by
    have hsplit : (2 : Nat) ^ 64 = 2 ^ g * 2 ^ (64 - g) := by
      rw [← Nat.pow_add]
      congr 1
      omega
    have hXl : 2 ^ g * u < 2 ^ g * 2 ^ (64 - g) := by
      rw [← hXu, ← hsplit, ← M64_def]
      exact hXlt
    exact Nat.lt_of_mul_lt_mul_left hXl
  have hz_eq : M64 - X = 2 ^ g * (2 ^ (64 - g) - u) := by
    have hsum : 2 ^ g * (2 ^ (64 - g) - u) + 2 ^ g * u = M64 := by
      rw [← Nat.mul_add, Nat.sub_add_cancel (Nat.le_of_lt hu_lt), ← Nat.pow_add, M64_def]
      congr 1
      omega
    omega
  have hum : u - 1 < 2 ^ (64 - g) := Nat.lt_of_le_of_lt (Nat.sub_le u 1) hu_lt
  have hzbit : ∀ k, (2 ^ (64 - g) - u).testBit k =
      (decide (k < 64 - g) && !(u - 1).testBit k) := by
    intro k
    have h1 : 2 ^ (64 - g) - u = 2 ^ (64 - g) - (u - 1 + 1) := by omega
    rw [h1, Nat.testBit_two_pow_sub_succ hum]
  have hu1bit : ∀ k, (u - 1).testBit (k + 1) = u.testBit (k + 1) := by
    intro k
    rw [Nat.testBit_add_one, Nat.testBit_add_one]
    have : (u - 1) / 2 = u / 2 := by omega
    rw [this]
  have hu1zero : (u - 1).testBit 0 = false := by
    rw [Nat.testBit_zero]
    simp
    omega
  have hshift : ∀ j, (M64 - X).testBit j =
      (decide (g ≤ j) && (2 ^ (64 - g) - u).testBit (j - g)) := by
    intro j
    rw [hz_eq, Nat.mul_comm, ← Nat.shiftLeft_eq, Nat.testBit_shiftLeft]
  by_cases hi64 : i < 64
  · rcases Nat.lt_trichotomy i g with hig | hig | hig
    · rw [hshift, decide_eq_false (by omega : ¬g ≤ i), Bool.false_and]
      rw [decide_eq_true hi64, Bool.true_and]
      rw [decide_eq_false (by omega : ¬i = g), decide_eq_false (by omega : ¬g < i)]
      rfl
    · subst hig
      rw [hshift, decide_eq_true (Nat.le_refl i), Bool.true_and, Nat.sub_self]
      rw [hzbit, hu1zero]
      rw [decide_eq_true (by omega : 0 < 64 - i)]
      rw [decide_eq_true hi64, decide_eq_true (rfl : i = i)]
      rfl
    · rw [hshift, decide_eq_true (by omega : g ≤ i), Bool.true_and]
      rw [hzbit]
      have hik : i - g = (i - g - 1) + 1 := by omega
      rw [hik, hu1bit]
      have hXbit : X.testBit i = u.testBit (i - g - 1 + 1) := by
        rw [hXu, Nat.mul_comm, ← Nat.shiftLeft_eq, Nat.testBit_shiftLeft, ← hik]
        rw [decide_eq_true (by omega : g ≤ i), Bool.true_and]
      rw [← hXbit]
      rw [decide_eq_true hi64, Bool.true_and]
      rw [decide_eq_false (by omega : ¬i = g), decide_eq_true (by omega : g < i)]
      have hlt : decide (i - g - 1 + 1 < 64 - g) = true := decide_eq_true (by omega)
      rw [hlt, Bool.true_and]
      rfl
  · have hlhs : (M64 - X).testBit i = false := by
      apply testBit_ge64 _ (by omega : 64 ≤ i)
      omega
    rw [hlhs, decide_eq_false hi64, Bool.false_and]

/-! Equivalence of the vector high-direction lane algorithm with the ray walk. -/

theorem c64_as_sub {x : Nat} (hx : x < M64) : c64 x = M64 - 1 - x := by
  apply Nat.eq_of_testBit_eq
  intro i
  rw [testBit_c64_lt hx]
  have h1 : M64 - 1 - x = 2 ^ 64 - (x + 1) := by
    rw [M64_def]
    omega
  rw [h1, Nat.testBit_two_pow_sub_succ (M64_def ▸ hx)]

theorem sub64_minus_one {a : Nat} (ha : a < M64) : sub64 a (M64 - 1) = (a + 1) % M64 := by
  have hM := M64_pos
  unfold sub64
  rw [Nat.mod_eq_of_lt ha, Nat.mod_eq_of_lt (show M64 - 1 < M64 by omega)]
  have h1 : a + (M64 - (M64 - 1)) = a + 1 := by omega
  rw [h1]

theorem sub64_of_le {a b : Nat} (hb : b ≤ a) (ha : a < M64) : sub64 a b = a - b := by
  have hM := M64_pos
  unfold sub64
  rw [Nat.mod_eq_of_lt ha, Nat.mod_eq_of_lt (show b < M64 by omega)]
  have h1 : a + (M64 - b) = M64 + (a - b) := by omega
  rw [h1, Nat.add_mod_left, Nat.mod_eq_of_lt (by omega)]

theorem sub64_zero_minus_one : sub64 0 (M64 - 1) = 1 := by
  have hM : 1 < M64 := by rw [M64_def]; norm_num
  unfold sub64
  rw [Nat.zero_mod, Nat.mod_eq_of_lt (show M64 - 1 < M64 by omega), Nat.zero_add]
  have h1 : M64 - (M64 - 1) = 1 := by omega
  rw [h1, Nat.mod_eq_of_lt (by omega)]

theorem sub64_zero_zero : sub64 0 0 = 0 := by
  unfold sub64
  simp

theorem flipmaskLane_zero : flipmaskLane 0 = M64 - 1 := by
  simp [flipmaskLane]

theorem flipmaskLane_two_pow {g : Nat} (hg : g < 64) : flipmaskLane (2 ^ g) = 0 := by
  unfold flipmaskLane
  rw [if_neg]
  by_cases h : g < 32
  · have hlt : (2 : Nat) ^ g < 2 ^ 32 := (Nat.pow_lt_pow_iff_right (by omega)).mpr h
    have h1 : (2 : Nat) ^ g % 2 ^ 32 = 2 ^ g := Nat.mod_eq_of_lt hlt
    have h2 : (2 : Nat) ^ g / 2 ^ 32 = 0 := Nat.div_eq_of_lt hlt
    rw [h1, h2]
    have h3 : 0 < (2 : Nat) ^ g := Nat.pos_pow_of_pos g (by omega)
    omega
  · have h1 : (2 : Nat) ^ g % 2 ^ 32 = 0 :=
      Nat.mod_eq_zero_of_dvd (Nat.pow_dvd_pow 2 (by omega))
    have h2 : (2 : Nat) ^ g / 2 ^ 32 = 2 ^ (g - 32) := Nat.pow_div (by omega) (by omega)
    rw [h1, h2]
    have h3 : 0 < (2 : Nat) ^ (g - 32) := Nat.pos_pow_of_pos _ (by omega)
    omega

theorem lor_c64_eq {O M : Nat} (hO : O < M64) (hM : M < M64) :
    O ||| c64 M = c64 (M &&& c64 O) := by
  have hX : M &&& c64 O < M64 := M64_def ▸ Nat.and_lt_two_pow _ (M64_def ▸ c64_lt O)
  apply Nat.eq_of_testBit_eq
  intro i
  rw [Nat.testBit_lor, testBit_c64_lt hM, testBit_c64_lt hX, Nat.testBit_land,
    testBit_c64_lt hO]
  by_cases hi : i < 64
  · rw [decide_eq_true hi]
    cases O.testBit i <;> cases M.testBit i <;> rfl
  · rw [decide_eq_false hi, testBit_ge64 hO (by omega)]
    rfl

theorem flipHigh_unfold (mlc P O : Nat) :
    flipHigh mlc P O =
      c64 mlc &&& sub64 (c64 mlc &&& sub64 (O ||| mlc) (M64 - 1) &&& P)
        (sub64 (flipmaskLane (c64 mlc &&& sub64 (O ||| mlc) (M64 - 1) &&& P)) (M64 - 1)) := rfl

theorem flipHigh_eq (P O : Nat) (cells : List Nat)
    (hpw : pairwiseB (fun a b => decide (a < b)) cells = true)
    (hb : ∀ c ∈ cells, c < 64) (hO : O < M64) (hPO : P &&& O = 0) :
    flipHigh (c64 (maskOf cells)) P O = rayFlip P O cells := by
  have hMp := M64_pos
  have hM : maskOf cells < M64 := maskOf_lt hb
  have hcc : c64 (c64 (maskOf cells)) = maskOf cells := c64_c64 hM
  have hXlt : maskOf cells &&& c64 O < M64 :=
    M64_def ▸ Nat.and_lt_two_pow _ (M64_def ▸ c64_lt O)
  have hstep : sub64 (O ||| c64 (maskOf cells)) (M64 - 1) =
      (M64 - (maskOf cells &&& c64 O)) % M64 := by
    have hor : O ||| c64 (maskOf cells) < M64 :=
      M64_def ▸ Nat.or_lt_two_pow (M64_def ▸ hO) (M64_def ▸ c64_lt _)
    rw [sub64_minus_one hor, lor_c64_eq hO hM, c64_as_sub hXlt]
    congr 1
    omega
  rw [flipHigh_unfold, hcc, hstep]
  by_cases hX0 : maskOf cells &&& c64 O = 0
  · have hz : (M64 - (maskOf cells &&& c64 O)) % M64 = 0 := by
      rw [hX0, Nat.sub_zero, Nat.mod_self]
    rw [hz, Nat.and_zero, Nat.zero_and, flipmaskLane_zero]
    have h1 : sub64 (M64 - 1) (M64 - 1) = 0 := by
      rw [sub64_of_le (Nat.le_refl _) (by omega), Nat.sub_self]
    rw [h1, sub64_zero_zero, Nat.and_zero]
    rw [rayFlip_eq_ite, outflanked_of_empty_opp P O cells hb hO hX0,
      if_neg Bool.false_ne_true]
  · have hX1 : 0 < maskOf cells &&& c64 O := Nat.pos_of_ne_zero hX0
    have hmod : (M64 - (maskOf cells &&& c64 O)) % M64 =
        M64 - (maskOf cells &&& c64 O) := Nat.mod_eq_of_lt (by omega)
    rw [hmod]
    obtain ⟨g, hg, hdn⟩ := exists_bottom_bit _ hX0
    have hg64 : g < 64 := by
      by_contra hcon
      push_neg at hcon
      rw [testBit_ge64 hXlt hcon] at hg
      exact Bool.false_ne_true hg
    have houtflank : maskOf cells &&& (M64 - (maskOf cells &&& c64 O)) &&& P =
        2 ^ g &&& P := by
      apply Nat.eq_of_testBit_eq
      intro i
      rw [Nat.testBit_land, Nat.testBit_land, Nat.testBit_land,
        testBit_M64_sub_of_bottom hXlt hX0 hg hdn, Nat.testBit_two_pow]
      by_cases hi64 : i < 64
      · rw [decide_eq_true hi64, Bool.true_and]
        rcases Nat.lt_trichotomy i g with hig | hig | hig
        · rw [decide_eq_false (by omega : ¬i = g), decide_eq_false (by omega : ¬g < i),
            decide_eq_false (by omega : ¬g = i)]
          cases (maskOf cells).testBit i <;> cases P.testBit i <;> rfl
        · subst hig
          have hMg : (maskOf cells).testBit i = true := by
            have h2 := hg
            rw [Nat.testBit_land, Bool.and_eq_true] at h2
            exact h2.1
          rw [hMg, decide_eq_true (rfl : i = i)]
          cases P.testBit i <;> rfl
        · rw [decide_eq_false (by omega : ¬i = g), decide_eq_true (by omega : g < i),
            decide_eq_false (by omega : ¬g = i)]
          have hXi : (maskOf cells &&& c64 O).testBit i =
              ((maskOf cells).testBit i && !O.testBit i) := by
            rw [Nat.testBit_land, testBit_c64_lt hO, decide_eq_true hi64, Bool.true_and]
          rw [hXi]
          have hPOi : (P.testBit i && O.testBit i) = false := by
            have h2 : (P &&& O).testBit i = false := by
              rw [hPO]
              exact Nat.zero_testBit i
            rw [Nat.testBit_land] at h2
            exact h2
          cases hMi : (maskOf cells).testBit i <;> cases hOi : O.testBit i <;>
            cases hPi : P.testBit i <;> simp_all
      · rw [decide_eq_false hi64, Bool.false_and, Bool.and_false, Bool.false_and,
          decide_eq_false (by omega : ¬g = i), Bool.false_and]
    rw [houtflank, land_two_pow_left]
    obtain ⟨hout, hrun⟩ := highCharAux P O cells g hpw hb hO hg hdn
    cases hPg : P.testBit g
    · rw [if_neg Bool.false_ne_true, flipmaskLane_zero]
      have h1 : sub64 (M64 - 1) (M64 - 1) = 0 := by
        rw [sub64_of_le (Nat.le_refl _) (by omega), Nat.sub_self]
      rw [h1, sub64_zero_zero, Nat.and_zero]
      rw [rayFlip_eq_ite, hout, hPg, if_neg Bool.false_ne_true]
    · rw [if_pos rfl, flipmaskLane_two_pow hg64, sub64_zero_minus_one]
      have h2g : 2 ^ g < M64 := by
        rw [M64_def]
        exact (Nat.pow_lt_pow_iff_right (by omega)).mpr hg64
      have h1 : sub64 (2 ^ g) 1 = 2 ^ g - 1 :=
        sub64_of_le (Nat.pos_pow_of_pos g (by omega)) h2g
      rw [h1, rayFlip_eq_ite, hout, hPg, if_pos rfl, hrun]

/-! Bridge facts: the source mask tables list exactly the geometric ray cells.
Each is a finite check over the 64 squares. -/

theorem bridge_maskr : ∀ pos < 64,
    maskrAt pos 0 = maskOf (rayCells pos (-1, 0)) ∧
    maskrAt pos 1 = maskOf (rayCells pos (1, -1)) ∧
    maskrAt pos 2 = maskOf (rayCells pos (0, -1)) ∧
    maskrAt pos 3 = maskOf (rayCells pos (-1, -1)) := by decide

theorem bridge_maskl : ∀ pos < 64,
    masklAt pos 0 = c64 (maskOf (rayCells pos (1, 0))) ∧
    masklAt pos 1 = c64 (maskOf (rayCells pos (-1, 1))) ∧
    masklAt pos 2 = c64 (maskOf (rayCells pos (0, 1))) ∧
    masklAt pos 3 = c64 (maskOf (rayCells pos (1, 1))) := by decide

theorem rays_sorted : ∀ pos < 64,
    pairwiseB (fun a b => decide (b < a)) (rayCells pos (-1, 0)) = true ∧
    pairwiseB (fun a b => decide (b < a)) (rayCells pos (1, -1)) = true ∧
    pairwiseB (fun a b => decide (b < a)) (rayCells pos (0, -1)) = true ∧
    pairwiseB (fun a b => decide (b < a)) (rayCells pos (-1, -1)) = true ∧
    pairwiseB (fun a b => decide (a < b)) (rayCells pos (1, 0)) = true ∧
    pairwiseB (fun a b => decide (a < b)) (rayCells pos (-1, 1)) = true ∧
    pairwiseB (fun a b => decide (a < b)) (rayCells pos (0, 1)) = true ∧
    pairwiseB (fun a b => decide (a < b)) (rayCells pos (1, 1)) = true := by decide

theorem rays_bounded : ∀ pos < 64,
    (rayCells pos (-1, 0)).all (fun c => decide (c < 64) && decide (c ≠ pos)) = true ∧
    (rayCells pos (1, -1)).all (fun c => decide (c < 64) && decide (c ≠ pos)) = true ∧
    (rayCells pos (0, -1)).all (fun c => decide (c < 64) && decide (c ≠ pos)) = true ∧
    (rayCells pos (-1, -1)).all (fun c => decide (c < 64) && decide (c ≠ pos)) = true ∧
    (rayCells pos (1, 0)).all (fun c => decide (c < 64) && decide (c ≠ pos)) = true ∧
    (rayCells pos (-1, 1)).all (fun c => decide (c < 64) && decide (c ≠ pos)) = true ∧
    (rayCells pos (0, 1)).all (fun c => decide (c < 64) && decide (c ≠ pos)) = true ∧
    (rayCells pos (1, 1)).all (fun c => decide (c < 64) && decide (c ≠ pos)) = true := by
  decide

theorem all_bounds {pos : Nat} {cells : List Nat}
    (h : cells.all (fun c => decide (c < 64) && decide (c ≠ pos)) = true) :
    (∀ c ∈ cells, c < 64) ∧ (∀ c ∈ cells, c ≠ pos) := by
  rw [List.all_eq_true] at h
  constructor <;> intro c hc
  · have h2 := h c hc
    simp only [Bool.and_eq_true, decide_eq_true_eq] at h2
    exact h2.1
  · have h2 := h c hc
    simp only [Bool.and_eq_true, decide_eq_true_eq] at h2
    exact h2.2

/-- Master equivalence: the bit-twiddling flip of the source computes exactly
the union of the 8 specification ray contributions, for any disjoint player
and opponent bitboards. -/
theorem flip_eq_specFlip (pos P O : Nat) (hpos : pos < 64) (hO : O < M64)
    (hPO : P &&& O = 0) : flip pos P O = specFlip pos P O := by
  obtain ⟨hr0, hr1, hr2, hr3⟩ := bridge_maskr pos hpos
  obtain ⟨hl0, hl1, hl2, hl3⟩ := bridge_maskl pos hpos
  obtain ⟨hs0, hs1, hs2, hs3, hs4, hs5, hs6, hs7⟩ := rays_sorted pos hpos
  obtain ⟨hb0, hb1, hb2, hb3, hb4, hb5, hb6, hb7⟩ := rays_bounded pos hpos
  unfold flip specFlip
  rw [hr0, hr1, hr2, hr3, hl0, hl1, hl2, hl3]
  rw [flipLow_eq P O _ hs0 (all_bounds hb0).1 hO,
    flipLow_eq P O _ hs1 (all_bounds hb1).1 hO,
    flipLow_eq P O _ hs2 (all_bounds hb2).1 hO,
    flipLow_eq P O _ hs3 (all_bounds hb3).1 hO,
    flipHigh_eq P O _ hs4 (all_bounds hb4).1 hO hPO,
    flipHigh_eq P O _ hs5 (all_bounds hb5).1 hO hPO,
    flipHigh_eq P O _ hs6 (all_bounds hb6).1 hO hPO,
    flipHigh_eq P O _ hs7 (all_bounds hb7).1 hO hPO]

/-! Subset facts: ray contributions only ever contain opponent ray cells. -/

theorem runBits_subset (O : Nat) (cells : List Nat) (i : Nat)
    (h : (runBits O cells).testBit i = true) : O.testBit i = true ∧ i ∈ cells := by
  induction cells with
  | nil => simp [runBits] at h
  | cons c rest ih =>
    rw [runBits_cons] at h
    by_cases hOc : O.testBit c = true
    · rw [if_pos hOc] at h
      rw [Nat.testBit_lor, Bool.or_eq_true] at h
      rcases h with h1 | h1
      · rw [Nat.testBit_two_pow, decide_eq_true_eq] at h1
        constructor
        · rw [← h1]
          exact hOc
        · rw [← h1]
          exact List.mem_cons_self c rest
      · obtain ⟨ho, hm⟩ := ih h1
        exact ⟨ho, List.mem_cons_of_mem c hm⟩
    · rw [if_neg hOc] at h
      simp at h

theorem rayFlip_subset (P O : Nat) (cells : List Nat) (i : Nat)
    (h : (rayFlip P O cells).testBit i = true) : O.testBit i = true ∧ i ∈ cells := by
  rw [rayFlip_eq_ite] at h
  by_cases ho : outflanked P O cells = true
  · rw [if_pos ho] at h
    exact runBits_subset O cells i h
  · rw [if_neg ho] at h
    simp at h

theorem specFlip_subset (pos P O : Nat) (i : Nat)
    (h : (specFlip pos P O).testBit i = true) : O.testBit i = true := by
  unfold specFlip at h
  simp only [Nat.testBit_lor, Bool.or_eq_true] at h
  rcases h with ((((((h | h) | h) | h) | h) | h) | h) | h <;>
    exact (rayFlip_subset _ _ _ _ h).1

/-- C1: for every square in [0,63] and every pair of 64-bit bitboards P, O
satisfying the preconditions (the square's bit clear in both P and O and
P AND O = 0), flip(square, P, O) equals the union over the 8 rays from the
square of the contiguous adjacent opponent run, included exactly when that run
is non-empty and immediately followed within the ray by a player bit, which is
what specFlip computes; when no ray outflanks the union is 0. -/
theorem flip_matches_ray_spec (pos P O : Nat) (hpos : pos < 64) (hP : P < M64)
    (hO : O < M64) (hPb : P.testBit pos = false) (hOb : O.testBit pos = false)
    (hPO : P &&& O = 0) : flip pos P O = specFlip pos P O :=
  flip_eq_specFlip pos P O hpos hO hPO

theorem flip_matches_ray_spec_witness :
    (28 < 64 ∧ (2 : Nat) ^ 44 < M64 ∧ (2 : Nat) ^ 36 < M64 ∧
      Nat.testBit (2 ^ 44) 28 = false ∧ Nat.testBit (2 ^ 36) 28 = false ∧
      2 ^ 44 &&& 2 ^ 36 = 0) ∧
    flip 28 (2 ^ 44) (2 ^ 36) = specFlip 28 (2 ^ 44) (2 ^ 36) :=
  ⟨⟨by decide, by decide, by decide, by decide, by decide, by decide⟩,
    flip_matches_ray_spec 28 (2 ^ 44) (2 ^ 36) (by decide) (by decide) (by decide)
      (by decide) (by decide) (by decide)⟩

/-- C4: for every valid input (square in [0,63], square's bit clear in P and O,
P AND O = 0), the flip mask intersected with the complement of the opponent
bitboard is 0: only opponent bits ever flip. -/
theorem flip_subset_opponent (pos P O : Nat) (hpos : pos < 64) (hP : P < M64)
    (hO : O < M64) (hPb : P.testBit pos = false) (hOb : O.testBit pos = false)
    (hPO : P &&& O = 0) : flip pos P O &&& c64 O = 0 := by
  rw [flip_eq_specFlip pos P O hpos hO hPO]
  apply Nat.eq_of_testBit_eq
  intro i
  rw [Nat.zero_testBit, Nat.testBit_land]
  cases hs : (specFlip pos P O).testBit i
  · rfl
  · rw [testBit_c64_lt hO, specFlip_subset pos P O i hs]
    cases hdec : decide (i < 64) <;> rfl

theorem flip_subset_opponent_witness :
    (28 < 64 ∧ (2 : Nat) ^ 44 < M64 ∧ (2 : Nat) ^ 36 < M64 ∧
      Nat.testBit (2 ^ 44) 28 = false ∧ Nat.testBit (2 ^ 36) 28 = false ∧
      2 ^ 44 &&& 2 ^ 36 = 0) ∧
    flip 28 (2 ^ 44) (2 ^ 36) &&& c64 (2 ^ 36) = 0 :=
  ⟨⟨by decide, by decide, by decide, by decide, by decide, by decide⟩,
    flip_subset_opponent 28 (2 ^ 44) (2 ^ 36) (by decide) (by decide) (by decide)
      (by decide) (by decide) (by decide)⟩

/-- C7: flip(3, 0, 0x7) = 0: with square 3, an empty player board and opponent
discs on bits 0, 1 and 2, nothing flips because the opponent run reaches the
board edge with no terminating player disc. -/
theorem flip_no_outflank_at_edge : flip 3 0 0x7 = 0 := by decide

set_option maxRecDepth 100000 in
set_option maxHeartbeats 4000000 in
theorem cfAt_eq_specCount :
    ∀ k < 8, ∀ p < 256, cfAt k p = specCount k p := by decide

/-- C2: every entry COUNT_FLIP[k][pattern] of the table, for lineRole k in
[0,7] and pattern in [0,255], equals the value prescribed by the
specification's generation rule specCount: twice the sum over both scan
directions of the adjacent zero run, counted only when terminated by a one bit
before the line boundary. -/
theorem count_flip_table_matches_rule :
    ∀ k < 8, ∀ p < 256, cfAt k p = specCount k p :=
  cfAt_eq_specCount

theorem count_flip_table_matches_rule_witness :
    (3 < 8 ∧ 37 < 256) ∧ cfAt 3 37 = specCount 3 37 :=
  ⟨⟨by decide, by decide⟩, count_flip_table_matches_rule 3 (by decide) 37 (by decide)⟩

/-! Bit reversal and the symmetry of the flip computation under it. -/

theorem revAux_lt : ∀ n x, revAux n x < 2 ^ n
  | 0, _ => by simp [revAux]
  | n + 1, x => by
    have h1 := revAux_lt n (x / 2)
    have h2 : x % 2 ≤ 1 := by omega
    have h3 : x % 2 * 2 ^ n ≤ 2 ^ n := by
      calc x % 2 * 2 ^ n ≤ 1 * 2 ^ n := Nat.mul_le_mul_right _ h2
      _ = 2 ^ n := Nat.one_mul _
    simp only [revAux]
    rw [Nat.pow_succ]
    omega

theorem testBit_revAux : ∀ n x i, (revAux n x).testBit i =
    (decide (i < n) && x.testBit (n - 1 - i))
  | 0, x, i => by simp [revAux]
  | n + 1, x, i => by
    have hlt := revAux_lt n (x / 2)
    have hcomm : revAux (n + 1) x = revAux n (x / 2) + 2 ^ n * (x % 2) := by
      simp only [revAux]
      ring
    rw [hcomm, testBit_add_mul_two_pow hlt]
    by_cases h : i < n
    · rw [if_pos h, testBit_revAux n (x / 2) i]
      rw [decide_eq_true h, decide_eq_true (by omega : i < n + 1), Bool.true_and,
        Bool.true_and]
      rw [Nat.testBit_div_two]
      congr 1
      omega
    · rw [if_neg h]
      by_cases h2 : i = n
      · subst h2
        rw [Nat.sub_self, decide_eq_true (by omega : i < i + 1), Bool.true_and]
        have h3 : i + 1 - 1 - i = 0 := by omega
        rw [h3, Nat.testBit_zero, Nat.testBit_zero]
        rw [decide_eq_decide]
        omega
      · have h3 : (x % 2).testBit (i - n) = false := by
          apply Nat.testBit_lt_two_pow
          calc x % 2 < 2 ^ 1 := by omega
          _ ≤ 2 ^ (i - n) := Nat.pow_le_pow_right (by omega) (by omega)
        rw [h3, decide_eq_false (by omega : ¬i < n + 1), Bool.false_and]

theorem testBit_rev64 (x i : Nat) :
    (rev64 x).testBit i = (decide (i < 64) && x.testBit (63 - i)) := by
  unfold rev64
  rw [testBit_revAux]

theorem rev64_lt (x : Nat) : rev64 x < M64 := M64_def ▸ revAux_lt 64 x

theorem rev64_lor (a b : Nat) : rev64 (a ||| b) = rev64 a ||| rev64 b := by
  apply Nat.eq_of_testBit_eq
  intro i
  rw [Nat.testBit_lor, testBit_rev64, testBit_rev64, testBit_rev64, Nat.testBit_lor]
  cases decide (i < 64) <;> cases a.testBit (63 - i) <;> cases b.testBit (63 - i) <;> rfl

theorem rev64_land (a b : Nat) : rev64 (a &&& b) = rev64 a &&& rev64 b := by
  apply Nat.eq_of_testBit_eq
  intro i
  rw [Nat.testBit_land, testBit_rev64, testBit_rev64, testBit_rev64, Nat.testBit_land]
  cases decide (i < 64) <;> cases a.testBit (63 - i) <;> cases b.testBit (63 - i) <;> rfl

theorem rev64_zero : rev64 0 = 0 := by decide

theorem rev64_two_pow {c : Nat} (hc : c < 64) : rev64 (2 ^ c) = 2 ^ (63 - c) := by
  apply Nat.eq_of_testBit_eq
  intro i
  rw [testBit_rev64, Nat.testBit_two_pow, Nat.testBit_two_pow]
  by_cases hi : i < 64
  · rw [decide_eq_true hi, Bool.true_and, decide_eq_decide]
    omega
  · rw [decide_eq_false hi, Bool.false_and, decide_eq_false (by omega : ¬63 - c = i)]

theorem testBit_rev64_flip {x c : Nat} (hc : c < 64) :
    (rev64 x).testBit (63 - c) = x.testBit c := by
  rw [testBit_rev64, decide_eq_true (by omega : 63 - c < 64), Bool.true_and]
  congr 1
  omega

attribute [irreducible] revAux rev64

/-! Geometric symmetry of the ray cells under the board point reflection. -/

theorem rayCellsAux_succ (x y dx dy : Int) (fuel : Nat) :
    rayCellsAux x y dx dy (fuel + 1) =
      if 0 ≤ x + dx ∧ x + dx < 8 ∧ 0 ≤ y + dy ∧ y + dy < 8 then
        ((y + dy) * 8 + (x + dx)).toNat :: rayCellsAux (x + dx) (y + dy) dx dy fuel
      else [] := rfl

theorem rayCellsAux_rev : ∀ (fuel : Nat) (x y dx dy : Int), 0 ≤ x → x < 8 → 0 ≤ y → y < 8 →
    rayCellsAux (7 - x) (7 - y) (-dx) (-dy) fuel =
      (rayCellsAux x y dx dy fuel).map (fun c => 63 - c)
  | 0, _, _, _, _, _, _, _, _ => rfl
  | fuel + 1, x, y, dx, dy, hx0, hx8, hy0, hy8 => by
    rw [rayCellsAux_succ, rayCellsAux_succ]
    by_cases h : 0 ≤ x + dx ∧ x + dx < 8 ∧ 0 ≤ y + dy ∧ y + dy < 8
    · rw [if_pos h, if_pos (by omega : 0 ≤ 7 - x + -dx ∧ 7 - x + -dx < 8 ∧
        0 ≤ 7 - y + -dy ∧ 7 - y + -dy < 8)]
      rw [List.map_cons]
      obtain ⟨h1, h2, h3, h4⟩ := h
      congr 1
      · omega
      · have e1 : 7 - x + -dx = 7 - (x + dx) := by ring
        have e2 : 7 - y + -dy = 7 - (y + dy) := by ring
        rw [e1, e2]
        exact rayCellsAux_rev fuel (x + dx) (y + dy) dx dy h1 h2 h3 h4
    · rw [if_neg h, if_neg (by omega : ¬(0 ≤ 7 - x + -dx ∧ 7 - x + -dx < 8 ∧
        0 ≤ 7 - y + -dy ∧ 7 - y + -dy < 8))]
      rfl

theorem rayCells_rev (pos : Nat) (hpos : pos < 64) (dx dy : Int) :
    rayCells (63 - pos) (dx, dy) = (rayCells pos (-dx, -dy)).map (fun c => 63 - c) := by
  show rayCellsAux (((63 - pos) % 8 : Nat) : Int) (((63 - pos) / 8 : Nat) : Int) dx dy 7 =
    (rayCellsAux ((pos % 8 : Nat) : Int) ((pos / 8 : Nat) : Int) (-dx) (-dy) 7).map
      (fun c => 63 - c)
  have e1 : (((63 - pos) % 8 : Nat) : Int) = 7 - ((pos % 8 : Nat) : Int) := by omega
  have e2 : (((63 - pos) / 8 : Nat) : Int) = 7 - ((pos / 8 : Nat) : Int) := by omega
  rw [e1, e2]
  have h := rayCellsAux_rev 7 ((pos % 8 : Nat) : Int) ((pos / 8 : Nat) : Int) (-dx) (-dy)
    (by omega) (by omega) (by omega) (by omega)
  rw [neg_neg, neg_neg] at h
  exact h

theorem outflanked_map_rev (P O : Nat) (cells : List Nat) (hb : ∀ c ∈ cells, c < 64) :
    outflanked (rev64 P) (rev64 O) (cells.map (fun c => 63 - c)) = outflanked P O cells := by
  induction cells with
  | nil => rw [List.map_nil, outflanked_nil, outflanked_nil]
  | cons c rest ih =>
    have hc : c < 64 := hb c (by simp)
    simp only [List.map_cons]
    rw [outflanked_cons, outflanked_cons, testBit_rev64_flip hc, testBit_rev64_flip hc]
    cases hOc : O.testBit c
    · rw [if_neg Bool.false_ne_true, if_neg Bool.false_ne_true]
    · rw [if_pos rfl, if_pos rfl]
      exact ih (fun b hbm => hb b (List.mem_cons_of_mem c hbm))

theorem runBits_map_rev (O : Nat) (cells : List Nat) (hb : ∀ c ∈ cells, c < 64) :
    runBits (rev64 O) (cells.map (fun c => 63 - c)) = rev64 (runBits O cells) := by
  induction cells with
  | nil => rw [List.map_nil, runBits_nil, runBits_nil, rev64_zero]
  | cons c rest ih =>
    have hc : c < 64 := hb c (by simp)
    simp only [List.map_cons]
    rw [runBits_cons, runBits_cons, testBit_rev64_flip hc]
    cases hOc : O.testBit c
    · rw [if_neg Bool.false_ne_true, if_neg Bool.false_ne_true, rev64_zero]
    · rw [if_pos rfl, if_pos rfl, rev64_lor, rev64_two_pow hc,
        ih (fun b hbm => hb b (List.mem_cons_of_mem c hbm))]

theorem rayFlip_map_rev (P O : Nat) (cells : List Nat) (hb : ∀ c ∈ cells, c < 64) :
    rayFlip (rev64 P) (rev64 O) (cells.map (fun c => 63 - c)) = rev64 (rayFlip P O cells) := by
  rw [rayFlip_eq_ite, rayFlip_eq_ite, outflanked_map_rev P O cells hb]
  cases ho : outflanked P O cells
  · rw [if_neg Bool.false_ne_true, if_neg Bool.false_ne_true, rev64_zero]
  · rw [if_pos rfl, if_pos rfl, runBits_map_rev O cells hb]

theorem lor_four_swap (a b c d e f g h : Nat) :
    e ||| f ||| g ||| h ||| a ||| b ||| c ||| d =
      a ||| b ||| c ||| d ||| e ||| f ||| g ||| h := by
  apply Nat.eq_of_testBit_eq
  intro i
  simp only [Nat.testBit_lor]
  cases a.testBit i <;> cases b.testBit i <;> cases c.testBit i <;> cases d.testBit i <;>
    cases e.testBit i <;> cases f.testBit i <;> cases g.testBit i <;> cases h.testBit i <;>
    rfl

theorem specFlip_rev (pos P O : Nat) (hpos : pos < 64) :
    specFlip (63 - pos) (rev64 P) (rev64 O) = rev64 (specFlip pos P O) := by
  obtain ⟨hb0, hb1, hb2, hb3, hb4, hb5, hb6, hb7⟩ := rays_bounded pos hpos
  unfold specFlip
  rw [rayCells_rev pos hpos (-1) 0, rayCells_rev pos hpos 1 (-1),
    rayCells_rev pos hpos 0 (-1), rayCells_rev pos hpos (-1) (-1),
    rayCells_rev pos hpos 1 0, rayCells_rev pos hpos (-1) 1,
    rayCells_rev pos hpos 0 1, rayCells_rev pos hpos 1 1]
  simp only [neg_neg, neg_zero]
  rw [rayFlip_map_rev P O _ (all_bounds hb4).1, rayFlip_map_rev P O _ (all_bounds hb5).1,
    rayFlip_map_rev P O _ (all_bounds hb6).1, rayFlip_map_rev P O _ (all_bounds hb7).1,
    rayFlip_map_rev P O _ (all_bounds hb0).1, rayFlip_map_rev P O _ (all_bounds hb1).1,
    rayFlip_map_rev P O _ (all_bounds hb2).1, rayFlip_map_rev P O _ (all_bounds hb3).1]
  rw [rev64_lor, rev64_lor, rev64_lor, rev64_lor, rev64_lor, rev64_lor, rev64_lor]
  exact lor_four_swap _ _ _ _ _ _ _ _

/-- C5: for every valid input (square in [0,63], square's bit clear in both
bitboards, P AND O = 0) and the board symmetry transform T given by full
64-bit bit reversal (acting on squares as s goes to 63 - s),
flip(T(square), T(P), T(O)) = T(flip(square, P, O)). -/
theorem flip_bit_reversal_symm (pos P O : Nat) (hpos : pos < 64) (hP : P < M64)
    (hO : O < M64) (hPb : P.testBit pos = false) (hOb : O.testBit pos = false)
    (hPO : P &&& O = 0) :
    flip (63 - pos) (rev64 P) (rev64 O) = rev64 (flip pos P O) := by
  have hdisj : rev64 P &&& rev64 O = 0 := by
    rw [← rev64_land, hPO, rev64_zero]
  rw [flip_eq_specFlip (63 - pos) (rev64 P) (rev64 O) (by omega) (rev64_lt O) hdisj,
    flip_eq_specFlip pos P O hpos hO hPO]
  exact specFlip_rev pos P O hpos

theorem flip_bit_reversal_symm_witness :
    (28 < 64 ∧ (2 : Nat) ^ 44 < M64 ∧ (2 : Nat) ^ 36 < M64 ∧
      Nat.testBit (2 ^ 44) 28 = false ∧ Nat.testBit (2 ^ 36) 28 = false ∧
      2 ^ 44 &&& 2 ^ 36 = 0) ∧
    flip (63 - 28) (rev64 (2 ^ 44)) (rev64 (2 ^ 36)) = rev64 (flip 28 (2 ^ 44) (2 ^ 36)) :=
  ⟨⟨by decide, by decide, by decide, by decide, by decide, by decide⟩,
    flip_bit_reversal_symm 28 (2 ^ 44) (2 ^ 36) (by decide) (by decide) (by decide)
      (by decide) (by decide) (by decide)⟩

/-! Population count. -/

theorem bcAux_succ (f x : Nat) : bcAux (f + 1) x = x % 2 + bcAux f (x / 2) := rfl

theorem bcAux_eq_sum : ∀ f x, bcAux f x =
    Finset.sum (Finset.range f) (fun i => if x.testBit i then 1 else 0)
  | 0, _ => by simp [bcAux]
  | f + 1, x => by
    rw [bcAux_succ, bcAux_eq_sum f (x / 2), Finset.sum_range_succ', Nat.add_comm]
    congr 1
    · apply Finset.sum_congr rfl
      intro i _
      rw [Nat.testBit_div_two]
    · rw [Nat.testBit_zero]
      rcases Nat.mod_two_eq_zero_or_one x with h | h <;> simp [h]

theorem bit_count_zero : bit_count 0 = 0 := by
  unfold bit_count
  rw [bcAux_eq_sum]
  simp

theorem bit_count_lor_disjoint {a b : Nat} (hd : a &&& b = 0) :
    bit_count (a ||| b) = bit_count a + bit_count b := by
  unfold bit_count
  rw [bcAux_eq_sum, bcAux_eq_sum, bcAux_eq_sum, ← Finset.sum_add_distrib]
  apply Finset.sum_congr rfl
  intro i _
  have h0 : (a.testBit i && b.testBit i) = false := by
    have h1 : (a &&& b).testBit i = false := by
      rw [hd]
      exact Nat.zero_testBit i
    rw [Nat.testBit_land] at h1
    exact h1
  rw [Nat.testBit_lor]
  cases h1 : a.testBit i <;> cases h2 : b.testBit i <;> simp_all

theorem bit_count_two_pow {c : Nat} (hc : c < 64) : bit_count (2 ^ c) = 1 := by
  unfold bit_count
  rw [bcAux_eq_sum]
  have h1 : ∀ i, (if (2 ^ c).testBit i then (1 : Nat) else 0) = if c = i then 1 else 0 := by
    intro i
    rw [Nat.testBit_two_pow]
    by_cases h : c = i <;> simp [h]
  rw [Finset.sum_congr rfl (fun i _ => h1 i), Finset.sum_ite_eq]
  rw [if_pos (Finset.mem_range.mpr hc)]

/-! Directional pattern scans match the ray walk. -/

theorem upFrom_succ (j f : Nat) : upFrom j (f + 1) = j :: upFrom (j + 1) f := rfl

theorem downFrom_succ (j f : Nat) : downFrom j (f + 1) = j :: downFrom (j - 1) f := rfl

theorem scanHit_cons (p j : Nat) (rest : List Nat) :
    scanHit p (j :: rest) = if p.testBit j then true else scanHit p rest := rfl

theorem scanRun_cons (p j : Nat) (rest : List Nat) :
    scanRun p (j :: rest) = if p.testBit j then 0 else scanRun p rest + 1 := rfl

theorem mem_upFrom : ∀ (f j x : Nat), x ∈ upFrom j f → j ≤ x ∧ x < j + f
  | 0, _, _, h => by simp [upFrom] at h
  | f + 1, j, x, h => by
    rw [upFrom_succ] at h
    rcases List.mem_cons.mp h with h1 | h1
    · omega
    · have := mem_upFrom f (j + 1) x h1
      omega

theorem scanHit_all_zero (p : Nat) : ∀ l, (∀ j ∈ l, p.testBit j = false) →
    scanHit p l = false
  | [], _ => rfl
  | j :: rest, h => by
    rw [scanHit_cons, h j (by simp), if_neg Bool.false_ne_true]
    exact scanHit_all_zero p rest (fun x hx => h x (List.mem_cons_of_mem j hx))

theorem scanHit_up_eq (P O p : Nat) : ∀ (cells : List Nat) (k : Nat),
    k + cells.length ≤ 7 →
    (∀ c ∈ cells, O.testBit c = !P.testBit c) →
    (∀ i, i < cells.length → p.testBit (k + 1 + i) = P.testBit (cells.getD i 0)) →
    (∀ j, k + cells.length + 1 ≤ j → j ≤ 7 → p.testBit j = false) →
    scanHit p (upFrom (k + 1) (7 - k)) = outflanked P O cells
  | [], k, hk, hO, hbits, hpad => by
    rw [outflanked_nil]
    apply scanHit_all_zero
    intro j hj
    have hb := mem_upFrom (7 - k) (k + 1) j hj
    exact hpad j (by simp only [List.length_nil]; omega) (by omega)
  | c :: cs, k, hk, hO, hbits, hpad => by
    have h7 : 7 - k = (7 - (k + 1)) + 1 := by
      have := List.length_cons c cs
      omega
    rw [h7, upFrom_succ, scanHit_cons, outflanked_cons]
    have hp : p.testBit (k + 1) = P.testBit c := by
      have h1 := hbits 0 (by simp)
      simpa using h1
    have hOc : O.testBit c = !P.testBit c := hO c (by simp)
    cases hPc : P.testBit c
    · rw [hPc] at hp hOc
      simp only [Bool.not_false] at hOc
      rw [hp, if_neg Bool.false_ne_true, hOc, if_pos rfl]
      apply scanHit_up_eq P O p cs (k + 1)
      · have := List.length_cons c cs
        omega
      · exact fun b hbm => hO b (List.mem_cons_of_mem c hbm)
      · intro i hi
        have h1 := hbits (i + 1) (by simpa using Nat.succ_lt_succ hi)
        have h2 : k + 1 + (i + 1) = k + 1 + 1 + i := by omega
        rw [h2] at h1
        simpa using h1
      · intro j h1 h2
        apply hpad j ?_ h2
        have := List.length_cons c cs
        omega
    · rw [hPc] at hp hOc
      simp only [Bool.not_true] at hOc
      rw [hp, if_pos rfl, hOc, if_neg Bool.false_ne_true]

theorem scanRun_up_eq (P O p : Nat) : ∀ (cells : List Nat) (k : Nat),
    k + cells.length ≤ 7 →
    (∀ c ∈ cells, O.testBit c = !P.testBit c) →
    (∀ c ∈ cells, c < 64) →
    pairwiseB (fun a b => decide (a ≠ b)) cells = true →
    (∀ i, i < cells.length → p.testBit (k + 1 + i) = P.testBit (cells.getD i 0)) →
    outflanked P O cells = true →
    scanRun p (upFrom (k + 1) (7 - k)) = bit_count (runBits O cells)
  | [], k, hk, hO, hb, hnd, hbits, hout => by
    rw [outflanked_nil] at hout
    exact absurd hout Bool.false_ne_true
  | c :: cs, k, hk, hO, hb, hnd, hbits, hout => by
    have h7 : 7 - k = (7 - (k + 1)) + 1 := by
      have := List.length_cons c cs
      omega
    rw [h7, upFrom_succ, scanRun_cons, runBits_cons]
    have hp : p.testBit (k + 1) = P.testBit c := by
      have h1 := hbits 0 (by simp)
      simpa using h1
    have hOc : O.testBit c = !P.testBit c := hO c (by simp)
    cases hPc : P.testBit c
    · rw [hPc] at hp hOc
      simp only [Bool.not_false] at hOc
      rw [hp, if_neg Bool.false_ne_true, hOc, if_pos rfl]
      have hcnotin : ∀ b ∈ cs, c ≠ b := by
        intro b hbm
        have h1 := (pairwiseB_cons hnd).1 b hbm
        simpa using h1
      have hdisj : 2 ^ c &&& runBits O cs = 0 := by
        rw [land_two_pow_left]
        cases hrb : (runBits O cs).testBit c
        · rw [if_neg Bool.false_ne_true]
        · exfalso
          obtain ⟨_, hmem⟩ := runBits_subset O cs c hrb
          exact hcnotin c hmem rfl
      rw [bit_count_lor_disjoint hdisj, bit_count_two_pow (hb c (by simp))]
      have hrec := scanRun_up_eq P O p cs (k + 1)
        (by have := List.length_cons c cs; omega)
        (fun b hbm => hO b (List.mem_cons_of_mem c hbm))
        (fun b hbm => hb b (List.mem_cons_of_mem c hbm))
        (pairwiseB_cons hnd).2
        (by
          intro i hi
          have h1 := hbits (i + 1) (by simpa using Nat.succ_lt_succ hi)
          have h2 : k + 1 + (i + 1) = k + 1 + 1 + i := by omega
          rw [h2] at h1
          simpa using h1)
        (by
          rw [outflanked_cons, hOc, if_pos rfl] at hout
          exact hout)
      omega
    · rw [hPc] at hp hOc
      simp only [Bool.not_true] at hOc
      rw [hp, if_pos rfl, hOc, if_neg Bool.false_ne_true, bit_count_zero]

theorem mem_downFrom : ∀ (f j x : Nat), x ∈ downFrom j f → x ≤ j
  | 0, _, _, h => by simp [downFrom] at h
  | f + 1, j, x, h => by
    rw [downFrom_succ] at h
    rcases List.mem_cons.mp h with h1 | h1
    · omega
    · have := mem_downFrom f (j - 1) x h1
      omega

theorem downFrom_unfold {k : Nat} (hk : 1 ≤ k) :
    downFrom (k - 1) k = (k - 1) :: downFrom (k - 1 - 1) (k - 1) := by
  obtain ⟨k2, rfl⟩ : ∃ k2, k = k2 + 1 := ⟨k - 1, by omega⟩
  rw [show k2 + 1 - 1 = k2 from by omega, downFrom_succ]

theorem scanHit_down_eq (P O p : Nat) : ∀ (cells : List Nat) (k : Nat),
    cells.length ≤ k →
    (∀ c ∈ cells, O.testBit c = !P.testBit c) →
    (∀ i, i < cells.length → p.testBit (k - 1 - i) = P.testBit (cells.getD i 0)) →
    (∀ j, j + cells.length + 1 ≤ k → p.testBit j = false) →
    scanHit p (downFrom (k - 1) k) = outflanked P O cells
  | [], k, hk, hO, hbits, hpad => by
    rw [outflanked_nil]
    apply scanHit_all_zero
    intro j hj
    have hb := mem_downFrom k (k - 1) j hj
    refine hpad j ?_
    simp only [List.length_nil]
    rcases Nat.eq_zero_or_pos k with h0 | h0
    · subst h0
      simp [downFrom] at hj
    · omega
  | c :: cs, k, hk, hO, hbits, hpad => by
    have hk1 : 1 ≤ k := by
      have := List.length_cons c cs
      omega
    rw [downFrom_unfold hk1, scanHit_cons, outflanked_cons]
    have hp : p.testBit (k - 1) = P.testBit c := by
      have h1 := hbits 0 (by simp)
      simpa using h1
    have hOc : O.testBit c = !P.testBit c := hO c (by simp)
    cases hPc : P.testBit c
    · rw [hPc] at hp hOc
      simp only [Bool.not_false] at hOc
      rw [hp, if_neg Bool.false_ne_true, hOc, if_pos rfl]
      apply scanHit_down_eq P O p cs (k - 1)
      · have := List.length_cons c cs
        omega
      · exact fun b hbm => hO b (List.mem_cons_of_mem c hbm)
      · intro i hi
        have h1 := hbits (i + 1) (by simpa using Nat.succ_lt_succ hi)
        rw [show k - 1 - (i + 1) = k - 1 - 1 - i from by omega] at h1
        simpa using h1
      · intro j h1
        apply hpad j
        have := List.length_cons c cs
        omega
    · rw [hPc] at hp hOc
      simp only [Bool.not_true] at hOc
      rw [hp, if_pos rfl, hOc, if_neg Bool.false_ne_true]

theorem scanRun_down_eq (P O p : Nat) : ∀ (cells : List Nat) (k : Nat),
    cells.length ≤ k →
    (∀ c ∈ cells, O.testBit c = !P.testBit c) →
    (∀ c ∈ cells, c < 64) →
    pairwiseB (fun a b => decide (a ≠ b)) cells = true →
    (∀ i, i < cells.length → p.testBit (k - 1 - i) = P.testBit (cells.getD i 0)) →
    outflanked P O cells = true →
    scanRun p (downFrom (k - 1) k) = bit_count (runBits O cells)
  | [], k, hk, hO, hb, hnd, hbits, hout => by
    rw [outflanked_nil] at hout
    exact absurd hout Bool.false_ne_true
  | c :: cs, k, hk, hO, hb, hnd, hbits, hout => by
    have hk1 : 1 ≤ k := by
      have := List.length_cons c cs
      omega
    rw [downFrom_unfold hk1, scanRun_cons, runBits_cons]
    have hp : p.testBit (k - 1) = P.testBit c := by
      have h1 := hbits 0 (by simp)
      simpa using h1
    have hOc : O.testBit c = !P.testBit c := hO c (by simp)
    cases hPc : P.testBit c
    · rw [hPc] at hp hOc
      simp only [Bool.not_false] at hOc
      rw [hp, if_neg Bool.false_ne_true, hOc, if_pos rfl]
      have hcnotin : ∀ b ∈ cs, c ≠ b := by
        intro b hbm
        have h1 := (pairwiseB_cons hnd).1 b hbm
        simpa using h1
      have hdisj : 2 ^ c &&& runBits O cs = 0 := by
        rw [land_two_pow_left]
        cases hrb : (runBits O cs).testBit c
        · rw [if_neg Bool.false_ne_true]
        · exfalso
          obtain ⟨_, hmem⟩ := runBits_subset O cs c hrb
          exact hcnotin c hmem rfl
      rw [bit_count_lor_disjoint hdisj, bit_count_two_pow (hb c (by simp))]
      have hrec := scanRun_down_eq P O p cs (k - 1)
        (by have := List.length_cons c cs; omega)
        (fun b hbm => hO b (List.mem_cons_of_mem c hbm))
        (fun b hbm => hb b (List.mem_cons_of_mem c hbm))
        (pairwiseB_cons hnd).2
        (by
          intro i hi
          have h1 := hbits (i + 1) (by simpa using Nat.succ_lt_succ hi)
          rw [show k - 1 - (i + 1) = k - 1 - 1 - i from by omega] at h1
          simpa using h1)
        (by
          rw [outflanked_cons, hOc, if_pos rfl] at hout
          exact hout)
      omega
    · rw [hPc] at hp hOc
      simp only [Bool.not_true] at hOc
      rw [hp, if_pos rfl, hOc, if_neg Bool.false_ne_true, bit_count_zero]

theorem scanCount_up_eq (P O p : Nat) (cells : List Nat) (k : Nat)
    (hk : k + cells.length ≤ 7)
    (hO : ∀ c ∈ cells, O.testBit c = !P.testBit c)
    (hb : ∀ c ∈ cells, c < 64)
    (hnd : pairwiseB (fun a b => decide (a ≠ b)) cells = true)
    (hbits : ∀ i, i < cells.length → p.testBit (k + 1 + i) = P.testBit (cells.getD i 0))
    (hpad : ∀ j, k + cells.length + 1 ≤ j → j ≤ 7 → p.testBit j = false) :
    scanCount p (upFrom (k + 1) (7 - k)) = bit_count (rayFlip P O cells) := by
  unfold scanCount
  rw [scanHit_up_eq P O p cells k hk hO hbits hpad, rayFlip_eq_ite]
  cases ho : outflanked P O cells
  · rw [if_neg Bool.false_ne_true, if_neg Bool.false_ne_true, bit_count_zero]
  · rw [if_pos rfl, if_pos rfl]
    exact scanRun_up_eq P O p cells k hk hO hb hnd hbits ho

theorem scanCount_down_eq (P O p : Nat) (cells : List Nat) (k : Nat)
    (hk : cells.length ≤ k)
    (hO : ∀ c ∈ cells, O.testBit c = !P.testBit c)
    (hb : ∀ c ∈ cells, c < 64)
    (hnd : pairwiseB (fun a b => decide (a ≠ b)) cells = true)
    (hbits : ∀ i, i < cells.length → p.testBit (k - 1 - i) = P.testBit (cells.getD i 0))
    (hpad : ∀ j, j + cells.length + 1 ≤ k → p.testBit j = false) :
    scanCount p (downFrom (k - 1) k) = bit_count (rayFlip P O cells) := by
  unfold scanCount
  rw [scanHit_down_eq P O p cells k hk hO hbits hpad, rayFlip_eq_ite]
  cases ho : outflanked P O cells
  · rw [if_neg Bool.false_ne_true, if_neg Bool.false_ne_true, bit_count_zero]
  · rw [if_pos rfl, if_pos rfl]
    exact scanRun_down_eq P O p cells k hk hO hb hnd hbits ho

/-! Byte extraction: relating the movemask-built patterns to player bits. -/

theorem zeroBytes_succ (v j : Nat) : zeroBytes v (j + 1) =
    zeroBytes v j + (if v / 2 ^ (8 * j) % 2 ^ 8 = 0 then 2 ^ j else 0) := rfl

theorem zeroBytes_lt : ∀ (v n : Nat), zeroBytes v n < 2 ^ n
  | _, 0 => by simp [zeroBytes]
  | v, n + 1 => by
    have h1 := zeroBytes_lt v n
    have hp : (2 : Nat) ^ (n + 1) = 2 ^ n * 2 := Nat.pow_succ 2 n
    rw [zeroBytes_succ]
    by_cases h : v / 2 ^ (8 * n) % 2 ^ 8 = 0
    · rw [if_pos h]
      omega
    · rw [if_neg h]
      omega

theorem testBit_zeroBytes : ∀ (n : Nat) (v j : Nat), (zeroBytes v n).testBit j =
    (decide (j < n) && decide (v / 2 ^ (8 * j) % 2 ^ 8 = 0))
  | 0, v, j => by simp [zeroBytes]
  | n + 1, v, j => by
    rw [zeroBytes_succ]
    have hlt := zeroBytes_lt v n
    by_cases h : v / 2 ^ (8 * n) % 2 ^ 8 = 0
    · rw [if_pos h]
      have hrw : zeroBytes v n + 2 ^ n = zeroBytes v n + 2 ^ n * 1 := by ring
      rw [hrw, testBit_add_mul_two_pow hlt]
      by_cases hj : j < n
      · rw [if_pos hj, testBit_zeroBytes n v j]
        rw [decide_eq_true hj, decide_eq_true (by omega : j < n + 1)]
      · rw [if_neg hj]
        by_cases hj2 : j = n
        · subst hj2
          rw [Nat.sub_self]
          rw [decide_eq_true (by omega : j < j + 1), decide_eq_true h]
          rfl
        · have h1 : (1 : Nat).testBit (j - n) = false := by
            apply Nat.testBit_lt_two_pow
            have h2 : (1 : Nat) < 2 ^ 1 := by norm_num
            calc (1 : Nat) < 2 ^ 1 := h2
            _ ≤ 2 ^ (j - n) := Nat.pow_le_pow_right (by omega) (by omega)
          rw [h1, decide_eq_false (by omega : ¬j < n + 1), Bool.false_and]
    · rw [if_neg h, Nat.add_zero, testBit_zeroBytes n v j]
      by_cases hj : j < n
      · rw [decide_eq_true hj, decide_eq_true (by omega : j < n + 1)]
      · rw [decide_eq_false hj, Bool.false_and]
        by_cases hj2 : j = n
        · subst hj2
          rw [decide_eq_false h, Bool.and_false]
        · rw [decide_eq_false (by omega : ¬j < n + 1), Bool.false_and]

theorem topBytes_succ (v j : Nat) : topBytes v (j + 1) =
    topBytes v j + (if v.testBit (8 * j + 7) then 2 ^ j else 0) := rfl

theorem topBytes_lt : ∀ (v n : Nat), topBytes v n < 2 ^ n
  | _, 0 => by simp [topBytes]
  | v, n + 1 => by
    have h1 := topBytes_lt v n
    have hp : (2 : Nat) ^ (n + 1) = 2 ^ n * 2 := Nat.pow_succ 2 n
    rw [topBytes_succ]
    by_cases h : v.testBit (8 * n + 7) = true
    · rw [if_pos h]
      omega
    · rw [if_neg h]
      omega

theorem testBit_topBytes : ∀ (n : Nat) (v j : Nat), (topBytes v n).testBit j =
    (decide (j < n) && v.testBit (8 * j + 7))
  | 0, v, j => by simp [topBytes]
  | n + 1, v, j => by
    rw [topBytes_succ]
    have hlt := topBytes_lt v n
    by_cases h : v.testBit (8 * n + 7) = true
    · rw [if_pos h]
      have hrw : topBytes v n + 2 ^ n = topBytes v n + 2 ^ n * 1 := by ring
      rw [hrw, testBit_add_mul_two_pow hlt]
      by_cases hj : j < n
      · rw [if_pos hj, testBit_topBytes n v j]
        rw [decide_eq_true hj, decide_eq_true (by omega : j < n + 1)]
      · rw [if_neg hj]
        by_cases hj2 : j = n
        · subst hj2
          rw [Nat.sub_self, h, decide_eq_true (by omega : j < j + 1)]
          rfl
        · have h1 : (1 : Nat).testBit (j - n) = false := by
            apply Nat.testBit_lt_two_pow
            calc (1 : Nat) < 2 ^ 1 := by norm_num
            _ ≤ 2 ^ (j - n) := Nat.pow_le_pow_right (by omega) (by omega)
          rw [h1, decide_eq_false (by omega : ¬j < n + 1), Bool.false_and]
    · rw [if_neg h, Nat.add_zero, testBit_topBytes n v j]
      by_cases hj : j < n
      · rw [decide_eq_true hj, decide_eq_true (by omega : j < n + 1)]
      · rw [decide_eq_false hj, Bool.false_and]
        by_cases hj2 : j = n
        · subst hj2
          rw [decide_eq_true (by omega : j < j + 1), Bool.true_and]
          cases hv : v.testBit (8 * j + 7)
          · rfl
          · exact absurd hv h
        · rw [decide_eq_false (by omega : ¬j < n + 1), Bool.false_and]

theorem byte_eq_zero_iff (v s : Nat) :
    v / 2 ^ s % 2 ^ 8 = 0 ↔ ∀ t < 8, v.testBit (s + t) = false := by
  constructor
  · intro h t ht
    have h1 : (v / 2 ^ s % 2 ^ 8).testBit t = false := by
      rw [h]
      exact Nat.zero_testBit t
    rw [Nat.testBit_mod_two_pow, ← Nat.shiftRight_eq_div_pow, Nat.testBit_shiftRight,
      decide_eq_true ht, Bool.true_and] at h1
    exact h1
  · intro h
    apply Nat.eq_of_testBit_eq
    intro t
    rw [Nat.zero_testBit, Nat.testBit_mod_two_pow]
    by_cases ht : t < 8
    · rw [← Nat.shiftRight_eq_div_pow, Nat.testBit_shiftRight, h t ht, Bool.and_false]
    · rw [decide_eq_false ht, Bool.false_and]

theorem byte_test_single {m j c : Nat} (hm : m &&& 255 <<< (8 * j) = 2 ^ c) (P : Nat) :
    decide ((P &&& m) / 2 ^ (8 * j) % 2 ^ 8 = 0) = !P.testBit c := by
  have h255 : ∀ t, (255 : Nat).testBit t = decide (t < 8) := by
    intro t
    rw [show (255 : Nat) = 2 ^ 8 - 1 from by norm_num, Nat.testBit_two_pow_sub_one]
  have hc_range : 8 * j ≤ c ∧ c < 8 * j + 8 := by
    have h1 : (m &&& 255 <<< (8 * j)).testBit c = true := by
      rw [hm]
      exact Nat.testBit_two_pow_self
    rw [Nat.testBit_land, Nat.testBit_shiftLeft, h255, Bool.and_eq_true,
      Bool.and_eq_true] at h1
    obtain ⟨_, h2, h3⟩ := h1
    rw [decide_eq_true_eq] at h2 h3
    omega
  have hmbit : ∀ t, t < 8 → m.testBit (8 * j + t) = decide (8 * j + t = c) := by
    intro t ht
    have h1 := congrArg (fun x => Nat.testBit x (8 * j + t)) hm
    simp only at h1
    rw [Nat.testBit_land, Nat.testBit_shiftLeft, h255, Nat.testBit_two_pow,
      decide_eq_true (by omega : 8 * j ≤ 8 * j + t),
      decide_eq_true (by omega : 8 * j + t - 8 * j < 8), Bool.true_and, Bool.and_true] at h1
    rw [h1, decide_eq_decide]
    omega
  cases hPc : P.testBit c
  · rw [Bool.not_false]
    apply decide_eq_true
    rw [byte_eq_zero_iff]
    intro t ht
    rw [Nat.testBit_land, hmbit t ht]
    by_cases he : 8 * j + t = c
    · rw [he, hPc, Bool.false_and]
    · rw [decide_eq_false he, Bool.and_false]
  · rw [Bool.not_true]
    apply decide_eq_false
    rw [byte_eq_zero_iff]
    intro hall
    have h1 := hall (c - 8 * j) (by omega)
    rw [Nat.testBit_land, hmbit (c - 8 * j) (by omega)] at h1
    rw [show 8 * j + (c - 8 * j) = c from by omega] at h1
    rw [hPc, decide_eq_true (rfl : c = c)] at h1
    simp at h1

theorem byte_test_zero {m j : Nat} (hm : m &&& 255 <<< (8 * j) = 0) (P : Nat) :
    (P &&& m) / 2 ^ (8 * j) % 2 ^ 8 = 0 := by
  have h255 : ∀ t, (255 : Nat).testBit t = decide (t < 8) := by
    intro t
    rw [show (255 : Nat) = 2 ^ 8 - 1 from by norm_num, Nat.testBit_two_pow_sub_one]
  rw [byte_eq_zero_iff]
  intro t ht
  have h1 := congrArg (fun x => Nat.testBit x (8 * j + t)) hm
  simp only at h1
  rw [Nat.testBit_land, Nat.testBit_shiftLeft, h255, Nat.zero_testBit,
    decide_eq_true (by omega : 8 * j ≤ 8 * j + t),
    decide_eq_true (by omega : 8 * j + t - 8 * j < 8), Bool.true_and, Bool.and_true] at h1
  rw [Nat.testBit_land, h1, Bool.and_false]

/-! General helpers for the last_flip analysis: complements against all-ones,
subset-based disjointness, and opponent bits of the terminal position. -/

theorem pairwiseB_imp {r s : Nat → Nat → Bool} (hrs : ∀ a b, r a b = true → s a b = true) :
    ∀ l : List Nat, pairwiseB r l = true → pairwiseB s l = true
  | [], _ => rfl
  | c :: rest, h => by
    obtain ⟨h1, h2⟩ := pairwiseB_cons h
    simp only [pairwiseB, Bool.and_eq_true, List.all_eq_true]
    exact ⟨fun b hb => hrs c b (h1 b hb), pairwiseB_imp hrs rest h2⟩

set_option maxRecDepth 10000 in
theorem xor255_eq_sub : ∀ z < 256, 255 ^^^ z = 255 - z := by decide

theorem testBit_two_pow_sub_one_sub {n S : Nat} (hS : S < 2 ^ n) (i : Nat) :
    (2 ^ n - 1 - S).testBit i = (decide (i < n) && !S.testBit i) := by
  rw [show 2 ^ n - 1 - S = 2 ^ n - (S + 1) from by omega,
    Nat.testBit_two_pow_sub_succ hS]

theorem xor_all_ones {n S : Nat} (hS : S < 2 ^ n) : (2 ^ n - 1) ^^^ S = 2 ^ n - 1 - S := by
  apply Nat.eq_of_testBit_eq
  intro i
  rw [Nat.testBit_xor, Nat.testBit_two_pow_sub_one, testBit_two_pow_sub_one_sub hS]
  by_cases hi : i < n
  · rw [decide_eq_true hi, Bool.true_and]
    cases S.testBit i <;> rfl
  · rw [decide_eq_false hi, Bool.false_and]
    have hSb : S.testBit i = false :=
      Nat.testBit_lt_two_pow (lt_of_lt_of_le hS (Nat.pow_le_pow_right (by omega) (by omega)))
    rw [hSb]
    rfl

theorem testBit_pattern (v j : Nat) (hj : j < 8) :
    (255 ^^^ zeroBytes v 8).testBit j = !decide (v / 2 ^ (8 * j) % 2 ^ 8 = 0) := by
  rw [Nat.testBit_xor, testBit_zeroBytes, decide_eq_true hj, Bool.true_and,
    show (255 : Nat) = 2 ^ 8 - 1 from by norm_num, Nat.testBit_two_pow_sub_one,
    decide_eq_true hj, Bool.true_xor]

theorem land_eq_zero_of_subsets {a b ma mb : Nat}
    (ha : ∀ i, a.testBit i = true → ma.testBit i = true)
    (hb : ∀ i, b.testBit i = true → mb.testBit i = true)
    (hd : ma &&& mb = 0) : a &&& b = 0 := by
  apply Nat.eq_of_testBit_eq
  intro i
  rw [Nat.testBit_land, Nat.zero_testBit]
  cases hai : a.testBit i
  · rw [Bool.false_and]
  · cases hbi : b.testBit i
    · rw [Bool.and_false]
    · have h1 : (ma &&& mb).testBit i = true := by
        rw [Nat.testBit_land, ha i hai, hb i hbi]
        rfl
      rw [hd, Nat.zero_testBit] at h1
      exact absurd h1 (by simp)

theorem lor_subset {a b ma mb : Nat}
    (ha : ∀ i, a.testBit i = true → ma.testBit i = true)
    (hb : ∀ i, b.testBit i = true → mb.testBit i = true) :
    ∀ i, (a ||| b).testBit i = true → (ma ||| mb).testBit i = true := by
  intro i h
  rw [Nat.testBit_lor, Bool.or_eq_true] at h ⊢
  rcases h with h | h
  · exact Or.inl (ha i h)
  · exact Or.inr (hb i h)

theorem bit_count_lor_of_masks {a b ma mb : Nat}
    (ha : ∀ i, a.testBit i = true → ma.testBit i = true)
    (hb : ∀ i, b.testBit i = true → mb.testBit i = true)
    (hd : ma &&& mb = 0) : bit_count (a ||| b) = bit_count a + bit_count b :=
  bit_count_lor_disjoint (land_eq_zero_of_subsets ha hb hd)

theorem rayFlip_subset_mask (P O : Nat) (cells : List Nat) :
    ∀ i, (rayFlip P O cells).testBit i = true → (maskOf cells).testBit i = true := by
  intro i h
  exact (testBit_maskOf cells i).mpr (rayFlip_subset P O cells i h).2

theorem termO_bit {P pos c : Nat} (hP : P < M64) (hpos : pos < 64) (hc : c < 64)
    (hne : c ≠ pos) : (c64 P &&& c64 (2 ^ pos)).testBit c = !P.testBit c := by
  have hb : (2 : Nat) ^ pos < M64 := by
    rw [M64_def]
    exact Nat.pow_lt_pow_right (by omega) hpos
  rw [Nat.testBit_land, testBit_c64_lt hP, testBit_c64_lt hb, Nat.testBit_two_pow,
    decide_eq_false (show ¬pos = c from fun he => hne he.symm), decide_eq_true hc]
  cases P.testBit c <;> rfl

theorem termO_lt (P pos : Nat) : c64 P &&& c64 (2 ^ pos) < M64 :=
  Nat.lt_of_le_of_lt Nat.and_le_left (c64_lt P)

theorem termO_disj {P pos : Nat} (hP : P < M64) : P &&& (c64 P &&& c64 (2 ^ pos)) = 0 := by
  apply Nat.eq_of_testBit_eq
  intro i
  rw [Nat.testBit_land, Nat.testBit_land, testBit_c64_lt hP, Nat.zero_testBit]
  cases P.testBit i <;> simp

/-! Table facts established by computation: lane 3 of mask_d_v is zero, the
other lanes hold exactly the ray cells of the three non-horizontal axes, one
cell per byte of the lane, and the ray cell sets are pairwise disjoint. -/

theorem mdv_lane3_zero : ∀ pos < 64, mdvAt pos 3 = 0 := by decide

theorem mdv_col_bytes_up : ∀ pos < 64, ∀ i < (rayCells pos (0, 1)).length,
    mdvAt pos 2 &&& 255 <<< (8 * (pos / 8 + 1 + i)) = 2 ^ ((rayCells pos (0, 1)).getD i 0) := by
  decide

theorem mdv_col_bytes_dn : ∀ pos < 64, ∀ i < (rayCells pos (0, -1)).length,
    mdvAt pos 2 &&& 255 <<< (8 * (pos / 8 - 1 - i)) = 2 ^ ((rayCells pos (0, -1)).getD i 0) := by
  decide

theorem mdv_col_pad_up : ∀ pos < 64, ∀ j < 8,
    pos / 8 + (rayCells pos (0, 1)).length + 1 ≤ j → mdvAt pos 2 &&& 255 <<< (8 * j) = 0 := by
  decide

theorem mdv_col_pad_dn : ∀ pos < 64, ∀ j < 8,
    j + (rayCells pos (0, -1)).length + 1 ≤ pos / 8 → mdvAt pos 2 &&& 255 <<< (8 * j) = 0 := by
  decide

theorem mdv_diag_bytes_up : ∀ pos < 64, ∀ i < (rayCells pos (1, 1)).length,
    mdvAt pos 1 &&& 255 <<< (8 * (pos / 8 + 1 + i)) = 2 ^ ((rayCells pos (1, 1)).getD i 0) := by
  decide

theorem mdv_diag_bytes_dn : ∀ pos < 64, ∀ i < (rayCells pos (-1, -1)).length,
    mdvAt pos 1 &&& 255 <<< (8 * (pos / 8 - 1 - i)) = 2 ^ ((rayCells pos (-1, -1)).getD i 0) := by
  decide

theorem mdv_diag_pad_up : ∀ pos < 64, ∀ j < 8,
    pos / 8 + (rayCells pos (1, 1)).length + 1 ≤ j → mdvAt pos 1 &&& 255 <<< (8 * j) = 0 := by
  decide

theorem mdv_diag_pad_dn : ∀ pos < 64, ∀ j < 8,
    j + (rayCells pos (-1, -1)).length + 1 ≤ pos / 8 → mdvAt pos 1 &&& 255 <<< (8 * j) = 0 := by
  decide

theorem mdv_anti_bytes_up : ∀ pos < 64, ∀ i < (rayCells pos (-1, 1)).length,
    mdvAt pos 0 &&& 255 <<< (8 * (pos / 8 + 1 + i)) = 2 ^ ((rayCells pos (-1, 1)).getD i 0) := by
  decide

theorem mdv_anti_bytes_dn : ∀ pos < 64, ∀ i < (rayCells pos (1, -1)).length,
    mdvAt pos 0 &&& 255 <<< (8 * (pos / 8 - 1 - i)) = 2 ^ ((rayCells pos (1, -1)).getD i 0) := by
  decide

theorem mdv_anti_pad_up : ∀ pos < 64, ∀ j < 8,
    pos / 8 + (rayCells pos (-1, 1)).length + 1 ≤ j → mdvAt pos 0 &&& 255 <<< (8 * j) = 0 := by
  decide

theorem mdv_anti_pad_dn : ∀ pos < 64, ∀ j < 8,
    j + (rayCells pos (1, -1)).length + 1 ≤ pos / 8 → mdvAt pos 0 &&& 255 <<< (8 * j) = 0 := by
  decide

theorem ray_lens : ∀ pos < 64,
    pos / 8 + (rayCells pos (0, 1)).length ≤ 7 ∧ (rayCells pos (0, -1)).length ≤ pos / 8 ∧
    pos / 8 + (rayCells pos (1, 1)).length ≤ 7 ∧ (rayCells pos (-1, -1)).length ≤ pos / 8 ∧
    pos / 8 + (rayCells pos (-1, 1)).length ≤ 7 ∧ (rayCells pos (1, -1)).length ≤ pos / 8 ∧
    pos % 8 + (rayCells pos (1, 0)).length = 7 ∧ (rayCells pos (-1, 0)).length = pos % 8 := by
  decide

theorem row_cells_up : ∀ pos < 64, ∀ i < (rayCells pos (1, 0)).length,
    (rayCells pos (1, 0)).getD i 0 = pos + 1 + i := by decide

theorem row_cells_dn : ∀ pos < 64, ∀ i < (rayCells pos (-1, 0)).length,
    (rayCells pos (-1, 0)).getD i 0 = pos - 1 - i := by decide

theorem ray_masks_prefix_disjoint : ∀ pos < 64,
    maskOf (rayCells pos (-1, 0)) &&& maskOf (rayCells pos (1, -1)) = 0 ∧
    (maskOf (rayCells pos (-1, 0)) ||| maskOf (rayCells pos (1, -1))) &&& maskOf (rayCells pos (0, -1)) = 0 ∧
    (maskOf (rayCells pos (-1, 0)) ||| maskOf (rayCells pos (1, -1)) ||| maskOf (rayCells pos (0, -1))) &&& maskOf (rayCells pos (-1, -1)) = 0 ∧
    (maskOf (rayCells pos (-1, 0)) ||| maskOf (rayCells pos (1, -1)) ||| maskOf (rayCells pos (0, -1)) ||| maskOf (rayCells pos (-1, -1))) &&& maskOf (rayCells pos (1, 0)) = 0 ∧
    (maskOf (rayCells pos (-1, 0)) ||| maskOf (rayCells pos (1, -1)) ||| maskOf (rayCells pos (0, -1)) ||| maskOf (rayCells pos (-1, -1)) ||| maskOf (rayCells pos (1, 0))) &&& maskOf (rayCells pos (-1, 1)) = 0 ∧
    (maskOf (rayCells pos (-1, 0)) ||| maskOf (rayCells pos (1, -1)) ||| maskOf (rayCells pos (0, -1)) ||| maskOf (rayCells pos (-1, -1)) ||| maskOf (rayCells pos (1, 0)) ||| maskOf (rayCells pos (-1, 1))) &&& maskOf (rayCells pos (0, 1)) = 0 ∧
    (maskOf (rayCells pos (-1, 0)) ||| maskOf (rayCells pos (1, -1)) ||| maskOf (rayCells pos (0, -1)) ||| maskOf (rayCells pos (-1, -1)) ||| maskOf (rayCells pos (1, 0)) ||| maskOf (rayCells pos (-1, 1)) ||| maskOf (rayCells pos (0, 1))) &&& maskOf (rayCells pos (1, 1)) = 0 := by
  decide

set_option maxRecDepth 100000 in
set_option maxHeartbeats 1600000 in
theorem cf_le_12 : ∀ k < 8, ∀ i < 256, cfAt k i ≤ 12 := by decide

set_option maxRecDepth 100000 in
set_option maxHeartbeats 1600000 in
theorem cf_mod_two : ∀ k < 8, ∀ i < 256, cfAt k i % 2 = 0 := by decide

set_option maxRecDepth 100000 in
theorem COUNT_FLIP_rows : COUNT_FLIP.length = 8 ∧
    ∀ k < 8, (COUNT_FLIP.getD k []).length = 256 := by decide

/-! One directional scan of a movemask pattern equals one ray contribution. -/

theorem scanCount_lane_up (pos P O m : Nat) (d : Int × Int)
    (hO : ∀ c ∈ rayCells pos d, O.testBit c = !P.testBit c)
    (hb : ∀ c ∈ rayCells pos d, c < 64)
    (hnd : pairwiseB (fun a b => decide (a ≠ b)) (rayCells pos d) = true)
    (hk : pos / 8 + (rayCells pos d).length ≤ 7)
    (hbytes : ∀ i < (rayCells pos d).length,
      m &&& 255 <<< (8 * (pos / 8 + 1 + i)) = 2 ^ ((rayCells pos d).getD i 0))
    (hpad : ∀ j < 8, pos / 8 + (rayCells pos d).length + 1 ≤ j →
      m &&& 255 <<< (8 * j) = 0) :
    scanCount (255 ^^^ zeroBytes (P &&& m) 8) (upFrom (pos / 8 + 1) (7 - pos / 8)) =
      bit_count (rayFlip P O (rayCells pos d)) := by
  apply scanCount_up_eq P O _ _ (pos / 8) hk hO hb hnd
  · intro i hi
    rw [testBit_pattern (P &&& m) (pos / 8 + 1 + i) (by omega),
      byte_test_single (hbytes i hi) P, Bool.not_not]
  · intro j hj1 hj2
    rw [testBit_pattern (P &&& m) j (by omega),
      decide_eq_true (byte_test_zero (hpad j (by omega) hj1) P), Bool.not_true]

theorem scanCount_lane_dn (pos P O m : Nat) (d : Int × Int) (hpos : pos < 64)
    (hO : ∀ c ∈ rayCells pos d, O.testBit c = !P.testBit c)
    (hb : ∀ c ∈ rayCells pos d, c < 64)
    (hnd : pairwiseB (fun a b => decide (a ≠ b)) (rayCells pos d) = true)
    (hk : (rayCells pos d).length ≤ pos / 8)
    (hbytes : ∀ i < (rayCells pos d).length,
      m &&& 255 <<< (8 * (pos / 8 - 1 - i)) = 2 ^ ((rayCells pos d).getD i 0))
    (hpad : ∀ j < 8, j + (rayCells pos d).length + 1 ≤ pos / 8 →
      m &&& 255 <<< (8 * j) = 0) :
    scanCount (255 ^^^ zeroBytes (P &&& m) 8) (downFrom (pos / 8 - 1) (pos / 8)) =
      bit_count (rayFlip P O (rayCells pos d)) := by
  apply scanCount_down_eq P O _ _ (pos / 8) hk hO hb hnd
  · intro i hi
    rw [testBit_pattern (P &&& m) (pos / 8 - 1 - i) (by omega),
      byte_test_single (hbytes i hi) P, Bool.not_not]
  · intro j hj1
    rw [testBit_pattern (P &&& m) j (by omega),
      decide_eq_true (byte_test_zero (hpad j (by omega) hj1) P), Bool.not_true]

/-! One COUNT_FLIP lookup on a movemask pattern equals twice the two ray
contributions of its axis. -/

theorem lookup_lane_eq (pos P O m : Nat) (du dd : Int × Int) (hpos : pos < 64)
    (hOu : ∀ c ∈ rayCells pos du, O.testBit c = !P.testBit c)
    (hbu : ∀ c ∈ rayCells pos du, c < 64)
    (hndu : pairwiseB (fun a b => decide (a ≠ b)) (rayCells pos du) = true)
    (hku : pos / 8 + (rayCells pos du).length ≤ 7)
    (hbytesu : ∀ i < (rayCells pos du).length,
      m &&& 255 <<< (8 * (pos / 8 + 1 + i)) = 2 ^ ((rayCells pos du).getD i 0))
    (hpadu : ∀ j < 8, pos / 8 + (rayCells pos du).length + 1 ≤ j →
      m &&& 255 <<< (8 * j) = 0)
    (hOd : ∀ c ∈ rayCells pos dd, O.testBit c = !P.testBit c)
    (hbd : ∀ c ∈ rayCells pos dd, c < 64)
    (hndd : pairwiseB (fun a b => decide (a ≠ b)) (rayCells pos dd) = true)
    (hkd : (rayCells pos dd).length ≤ pos / 8)
    (hbytesd : ∀ i < (rayCells pos dd).length,
      m &&& 255 <<< (8 * (pos / 8 - 1 - i)) = 2 ^ ((rayCells pos dd).getD i 0))
    (hpadd : ∀ j < 8, j + (rayCells pos dd).length + 1 ≤ pos / 8 →
      m &&& 255 <<< (8 * j) = 0) :
    cfAt (pos / 8) (255 ^^^ zeroBytes (P &&& m) 8) =
      2 * (bit_count (rayFlip P O (rayCells pos du)) +
        bit_count (rayFlip P O (rayCells pos dd))) := by
  have hz : zeroBytes (P &&& m) 8 < 256 := by
    have h := zeroBytes_lt (P &&& m) 8
    norm_num at h
    exact h
  have hlt : 255 ^^^ zeroBytes (P &&& m) 8 < 256 := by
    rw [xor255_eq_sub _ hz]
    omega
  rw [cfAt_eq_specCount (pos / 8) (by omega) _ hlt]
  unfold specCount
  rw [scanCount_lane_up pos P O m du hOu hbu hndu hku hbytesu hpadu,
    scanCount_lane_dn pos P O m dd hpos hOd hbd hndd hkd hbytesd hpadd]

theorem lookup_row_eq (pos P O : Nat) (hpos : pos < 64)
    (hOu : ∀ c ∈ rayCells pos (1, 0), O.testBit c = !P.testBit c)
    (hbu : ∀ c ∈ rayCells pos (1, 0), c < 64)
    (hndu : pairwiseB (fun a b => decide (a ≠ b)) (rayCells pos (1, 0)) = true)
    (hOd : ∀ c ∈ rayCells pos (-1, 0), O.testBit c = !P.testBit c)
    (hbd : ∀ c ∈ rayCells pos (-1, 0), c < 64)
    (hndd : pairwiseB (fun a b => decide (a ≠ b)) (rayCells pos (-1, 0)) = true) :
    cfAt (pos % 8) ((P >>> (pos / 8 * 8)) % 256) =
      2 * (bit_count (rayFlip P O (rayCells pos (1, 0))) +
        bit_count (rayFlip P O (rayCells pos (-1, 0)))) := by
  obtain ⟨-, -, -, -, -, -, hlu, hld⟩ := ray_lens pos hpos
  have hlt : (P >>> (pos / 8 * 8)) % 256 < 256 := Nat.mod_lt _ (by norm_num)
  have hbit : ∀ j < 8, ((P >>> (pos / 8 * 8)) % 256).testBit j =
      P.testBit (pos / 8 * 8 + j) := by
    intro j hj
    rw [show (256 : Nat) = 2 ^ 8 from rfl, Nat.testBit_mod_two_pow, decide_eq_true hj,
      Bool.true_and, Nat.testBit_shiftRight]
  rw [cfAt_eq_specCount (pos % 8) (by omega) _ hlt]
  unfold specCount
  rw [scanCount_up_eq P O _ (rayCells pos (1, 0)) (pos % 8) (by omega) hOu hbu hndu
      ?hbitsu ?hpadu,
    scanCount_down_eq P O _ (rayCells pos (-1, 0)) (pos % 8) (by omega) hOd hbd hndd
      ?hbitsd ?hpadd]
  case hbitsu =>
    intro i hi
    rw [row_cells_up pos hpos i hi, hbit (pos % 8 + 1 + i) (by omega),
      show pos / 8 * 8 + (pos % 8 + 1 + i) = pos + 1 + i from by omega]
  case hpadu =>
    intro j hj1 hj2
    exact absurd hj2 (by omega)
  case hbitsd =>
    intro i hi
    rw [row_cells_dn pos hpos i hi, hbit (pos % 8 - 1 - i) (by omega),
      show pos / 8 * 8 + (pos % 8 - 1 - i) = pos - 1 - i from by omega]
  case hpadd =>
    intro j hj
    exact absurd hj (by omega)

/-! Decomposition of the AVX2 movemask word t into its three useful bytes. -/

theorem lastFlipT_bytes (pos P : Nat) (hpos : pos < 64) :
    lastFlipT pos P % 256 = 255 ^^^ zeroBytes (P &&& mdvAt pos 0) 8 ∧
    (lastFlipT pos P >>> 8) % 256 = 255 ^^^ zeroBytes (P &&& mdvAt pos 1) 8 ∧
    lastFlipT pos P >>> 16 = 255 ^^^ zeroBytes (P &&& mdvAt pos 2) 8 ∧
    lastFlipT pos P < 16777216 := by
  have h3 := mdv_lane3_zero pos hpos
  have hz0 := zeroBytes_lt (P &&& mdvAt pos 0) 8
  have hz1 := zeroBytes_lt (P &&& mdvAt pos 1) 8
  have hz2 := zeroBytes_lt (P &&& mdvAt pos 2) 8
  norm_num at hz0 hz1 hz2
  have hP0 : P &&& (0 : Nat) = 0 := by simp
  unfold lastFlipT
  rw [h3, hP0, show zeroBytes 0 8 = 255 from rfl]
  obtain ⟨z0, hz0e⟩ : ∃ z, zeroBytes (P &&& mdvAt pos 0) 8 = z := ⟨_, rfl⟩
  obtain ⟨z1, hz1e⟩ : ∃ z, zeroBytes (P &&& mdvAt pos 1) 8 = z := ⟨_, rfl⟩
  obtain ⟨z2, hz2e⟩ : ∃ z, zeroBytes (P &&& mdvAt pos 2) 8 = z := ⟨_, rfl⟩
  rw [hz0e] at hz0 ⊢
  rw [hz1e] at hz1 ⊢
  rw [hz2e] at hz2 ⊢
  rw [show (2 : Nat) ^ 8 = 256 from rfl, show (2 : Nat) ^ 16 = 65536 from rfl,
    show (2 : Nat) ^ 24 = 16777216 from rfl]
  have hS : z0 + 256 * z1 + 65536 * z2 + 16777216 * 255 < 2 ^ 32 := by
    rw [show (2 : Nat) ^ 32 = 4294967296 from rfl]
    omega
  rw [show (0xFFFFFFFF : Nat) = 2 ^ 32 - 1 from rfl, xor_all_ones hS,
    show (2 : Nat) ^ 32 = 4294967296 from rfl]
  rw [xor255_eq_sub z0 hz0, xor255_eq_sub z1 hz1, xor255_eq_sub z2 hz2,
    Nat.shiftRight_eq_div_pow, Nat.shiftRight_eq_div_pow,
    show (2 : Nat) ^ 8 = 256 from rfl, show (2 : Nat) ^ 16 = 65536 from rfl]
  refine ⟨by omega, by omega, by omega, by omega⟩

/-! Splitting the population count of the 8-ray union. -/

theorem bit_count_specFlip (pos P O : Nat) (hpos : pos < 64) :
    bit_count (specFlip pos P O) =
      bit_count (rayFlip P O (rayCells pos (-1, 0))) +
      bit_count (rayFlip P O (rayCells pos (1, -1))) +
      bit_count (rayFlip P O (rayCells pos (0, -1))) +
      bit_count (rayFlip P O (rayCells pos (-1, -1))) +
      bit_count (rayFlip P O (rayCells pos (1, 0))) +
      bit_count (rayFlip P O (rayCells pos (-1, 1))) +
      bit_count (rayFlip P O (rayCells pos (0, 1))) +
      bit_count (rayFlip P O (rayCells pos (1, 1))) := by
  obtain ⟨hd1, hd2, hd3, hd4, hd5, hd6, hd7⟩ := ray_masks_prefix_disjoint pos hpos
  have s0 := rayFlip_subset_mask P O (rayCells pos (-1, 0))
  have s1 := rayFlip_subset_mask P O (rayCells pos (1, -1))
  have s2 := rayFlip_subset_mask P O (rayCells pos (0, -1))
  have s3 := rayFlip_subset_mask P O (rayCells pos (-1, -1))
  have s4 := rayFlip_subset_mask P O (rayCells pos (1, 0))
  have s5 := rayFlip_subset_mask P O (rayCells pos (-1, 1))
  have s6 := rayFlip_subset_mask P O (rayCells pos (0, 1))
  have s7 := rayFlip_subset_mask P O (rayCells pos (1, 1))
  have t1 := lor_subset s0 s1
  have t2 := lor_subset t1 s2
  have t3 := lor_subset t2 s3
  have t4 := lor_subset t3 s4
  have t5 := lor_subset t4 s5
  have t6 := lor_subset t5 s6
  unfold specFlip
  rw [bit_count_lor_of_masks t6 s7 hd7, bit_count_lor_of_masks t5 s6 hd6,
    bit_count_lor_of_masks t4 s5 hd5, bit_count_lor_of_masks t3 s4 hd4,
    bit_count_lor_of_masks t2 s3 hd3, bit_count_lor_of_masks t1 s2 hd2,
    bit_count_lor_of_masks s0 s1 hd1]

/-! The terminal counter as twice the population count of the terminal flip. -/

theorem last_flip_decomp (pos P : Nat) (hpos : pos < 64) (hP : P < M64) :
    last_flip pos P = 2 * bit_count (specFlip pos P (c64 P &&& c64 (2 ^ pos))) := by
  obtain ⟨hb0', hb1', hb2', hb3', hb4', hb5', hb6', hb7'⟩ := rays_bounded pos hpos
  obtain ⟨hs0, hs1, hs2, hs3, hs4, hs5, hs6, hs7⟩ := rays_sorted pos hpos
  obtain ⟨hl1, hl2, hl3, hl4, hl5, hl6, hl7u, hl7d⟩ := ray_lens pos hpos
  obtain ⟨ht0, ht1, ht2, ht3⟩ := lastFlipT_bytes pos P hpos
  have himp1 : ∀ a b : Nat, decide (b < a) = true → decide (a ≠ b) = true := by
    intro a b h
    rw [decide_eq_true_eq] at h
    exact decide_eq_true (by omega)
  have himp2 : ∀ a b : Nat, decide (a < b) = true → decide (a ≠ b) = true := by
    intro a b h
    rw [decide_eq_true_eq] at h
    exact decide_eq_true (by omega)
  have hOgen : ∀ L : List Nat, (∀ c ∈ L, c < 64) → (∀ c ∈ L, c ≠ pos) →
      ∀ c ∈ L, (c64 P &&& c64 (2 ^ pos)).testBit c = !P.testBit c :=
    fun _ hb' hne' c hc => termO_bit hP hpos (hb' c hc) (hne' c hc)
  have hO0 := hOgen _ (all_bounds hb0').1 (all_bounds hb0').2
  have hO1 := hOgen _ (all_bounds hb1').1 (all_bounds hb1').2
  have hO2 := hOgen _ (all_bounds hb2').1 (all_bounds hb2').2
  have hO3 := hOgen _ (all_bounds hb3').1 (all_bounds hb3').2
  have hO4 := hOgen _ (all_bounds hb4').1 (all_bounds hb4').2
  have hO5 := hOgen _ (all_bounds hb5').1 (all_bounds hb5').2
  have hO6 := hOgen _ (all_bounds hb6').1 (all_bounds hb6').2
  have hO7 := hOgen _ (all_bounds hb7').1 (all_bounds hb7').2
  have e_col := lookup_lane_eq pos P (c64 P &&& c64 (2 ^ pos)) (mdvAt pos 2) (0, 1) (0, -1)
    hpos hO6 (all_bounds hb6').1 (pairwiseB_imp himp2 _ hs6) hl1
    (mdv_col_bytes_up pos hpos) (mdv_col_pad_up pos hpos)
    hO2 (all_bounds hb2').1 (pairwiseB_imp himp1 _ hs2) hl2
    (mdv_col_bytes_dn pos hpos) (mdv_col_pad_dn pos hpos)
  have e_diag := lookup_lane_eq pos P (c64 P &&& c64 (2 ^ pos)) (mdvAt pos 1) (1, 1) (-1, -1)
    hpos hO7 (all_bounds hb7').1 (pairwiseB_imp himp2 _ hs7) hl3
    (mdv_diag_bytes_up pos hpos) (mdv_diag_pad_up pos hpos)
    hO3 (all_bounds hb3').1 (pairwiseB_imp himp1 _ hs3) hl4
    (mdv_diag_bytes_dn pos hpos) (mdv_diag_pad_dn pos hpos)
  have e_anti := lookup_lane_eq pos P (c64 P &&& c64 (2 ^ pos)) (mdvAt pos 0) (-1, 1) (1, -1)
    hpos hO5 (all_bounds hb5').1 (pairwiseB_imp himp2 _ hs5) hl5
    (mdv_anti_bytes_up pos hpos) (mdv_anti_pad_up pos hpos)
    hO1 (all_bounds hb1').1 (pairwiseB_imp himp1 _ hs1) hl6
    (mdv_anti_bytes_dn pos hpos) (mdv_anti_pad_dn pos hpos)
  have e_row := lookup_row_eq pos P (c64 P &&& c64 (2 ^ pos)) hpos
    hO4 (all_bounds hb4').1 (pairwiseB_imp himp2 _ hs4)
    hO0 (all_bounds hb0').1 (pairwiseB_imp himp1 _ hs0)
  have hp0 : 255 ^^^ zeroBytes (P &&& mdvAt pos 0) 8 < 256 := by
    have h := zeroBytes_lt (P &&& mdvAt pos 0) 8
    norm_num at h
    rw [xor255_eq_sub _ h]
    omega
  have hp1 : 255 ^^^ zeroBytes (P &&& mdvAt pos 1) 8 < 256 := by
    have h := zeroBytes_lt (P &&& mdvAt pos 1) 8
    norm_num at h
    rw [xor255_eq_sub _ h]
    omega
  have hp2 : 255 ^^^ zeroBytes (P &&& mdvAt pos 2) 8 < 256 := by
    have h := zeroBytes_lt (P &&& mdvAt pos 2) 8
    norm_num at h
    rw [xor255_eq_sub _ h]
    omega
  have b_col := e_col ▸ cf_le_12 (pos / 8) (by omega) _ hp2
  have b_diag := e_diag ▸ cf_le_12 (pos / 8) (by omega) _ hp1
  have b_anti := e_anti ▸ cf_le_12 (pos / 8) (by omega) _ hp0
  have b_row := e_row ▸ cf_le_12 (pos % 8) (by omega) _
    (Nat.mod_lt _ (by norm_num) : (P >>> (pos / 8 * 8)) % 256 < 256)
  have hmain : last_flip pos P =
      (((cfAt (pos / 8) (lastFlipT pos P >>> 16) +
        cfAt (pos / 8) ((lastFlipT pos P >>> 8) % 256)) % 256 +
        cfAt (pos / 8) (lastFlipT pos P % 256)) % 256 +
        cfAt (pos % 8) ((P >>> (pos / 8 * 8)) % 256)) % 256 := rfl
  rw [hmain, ht0, ht1, ht2, e_col, e_diag, e_anti, e_row,
    bit_count_specFlip pos P _ hpos]
  omega

/-! Out-of-range COUNT_FLIP accesses in the embedding and parity of entries. -/

theorem cfAt_default_zero : ∀ k i : Nat, 8 ≤ k ∨ 256 ≤ i → cfAt k i = 0 := by
  intro k i h
  obtain ⟨hlen, hrows⟩ := COUNT_FLIP_rows
  unfold cfAt
  rcases h with h | h
  · have hrow : COUNT_FLIP.getD k [] = [] := List.getD_eq_default _ _ (by omega)
    rw [hrow]
    exact List.getD_eq_default _ _ (by simp)
  · by_cases hk : k < 8
    · exact List.getD_eq_default _ _ (by rw [hrows k hk]; omega)
    · have hrow : COUNT_FLIP.getD k [] = [] := List.getD_eq_default _ _ (by omega)
      rw [hrow]
      exact List.getD_eq_default _ _ (by simp)

theorem cfAt_even (k i : Nat) : cfAt k i % 2 = 0 := by
  by_cases hk : k < 8
  · by_cases hi : i < 256
    · exact cf_mod_two k hk i hi
    · rw [cfAt_default_zero k i (Or.inr (by omega))]
  · rw [cfAt_default_zero k i (Or.inl (by omega))]

/-! The SSE path: its two diagonal lanes repeat mask_d_v, its shifted column
pattern coincides with the AVX2 byte of t, byte per byte. -/

theorem md_eq_mdv : ∀ pos < 64, mdAt pos 0 = mdvAt pos 0 ∧ mdAt pos 1 = mdvAt pos 1 := by
  decide

theorem mdv_col_bytes_all : ∀ pos < 64, ∀ j < 8,
    mdvAt pos 2 &&& 255 <<< (8 * j) = 2 ^ (8 * j + pos % 8) := by decide

theorem xor7_eq : ∀ x < 8, x ^^^ 7 = 7 - x := by decide

theorem lastFlipTSse_bytes (pos P : Nat) :
    lastFlipTSse pos P % 256 = 255 ^^^ zeroBytes (P &&& mdAt pos 0) 8 ∧
    (lastFlipTSse pos P >>> 8) % 256 = 255 ^^^ zeroBytes (P &&& mdAt pos 1) 8 := by
  have hz0 := zeroBytes_lt (P &&& mdAt pos 0) 8
  have hz1 := zeroBytes_lt (P &&& mdAt pos 1) 8
  norm_num at hz0 hz1
  unfold lastFlipTSse
  obtain ⟨z0, hz0e⟩ : ∃ z, zeroBytes (P &&& mdAt pos 0) 8 = z := ⟨_, rfl⟩
  obtain ⟨z1, hz1e⟩ : ∃ z, zeroBytes (P &&& mdAt pos 1) 8 = z := ⟨_, rfl⟩
  rw [hz0e] at hz0 ⊢
  rw [hz1e] at hz1 ⊢
  rw [show (2 : Nat) ^ 8 = 256 from rfl]
  have hS : z0 + 256 * z1 < 2 ^ 32 := by
    rw [show (2 : Nat) ^ 32 = 4294967296 from rfl]
    omega
  rw [show (0xFFFFFFFF : Nat) = 2 ^ 32 - 1 from rfl, xor_all_ones hS,
    show (2 : Nat) ^ 32 = 4294967296 from rfl]
  rw [xor255_eq_sub z0 hz0, xor255_eq_sub z1 hz1, Nat.shiftRight_eq_div_pow,
    show (2 : Nat) ^ 8 = 256 from rfl]
  exact ⟨by omega, by omega⟩

theorem sse_col_pattern (pos P : Nat) (hpos : pos < 64) :
    topBytes ((P <<< (pos % 8 ^^^ 7)) % M64) 8 +
      2 ^ 8 * topBytes ((0 <<< (pos % 8 ^^^ 7)) % M64) 8 =
      255 ^^^ zeroBytes (P &&& mdvAt pos 2) 8 := by
  have h0 : ((0 : Nat) <<< (pos % 8 ^^^ 7)) % M64 = 0 := by
    rw [Nat.zero_shiftLeft, Nat.zero_mod]
  rw [h0, show topBytes 0 8 = 0 from rfl, Nat.mul_zero, Nat.add_zero,
    xor7_eq (pos % 8) (Nat.mod_lt pos (by omega))]
  have htb := topBytes_lt ((P <<< (7 - pos % 8)) % M64) 8
  have hzb := zeroBytes_lt (P &&& mdvAt pos 2) 8
  norm_num at hzb
  apply Nat.eq_of_testBit_eq
  intro j
  by_cases hj : j < 8
  · rw [testBit_topBytes 8 _ j, decide_eq_true hj, Bool.true_and,
      testBit_pattern _ j hj, byte_test_single (mdv_col_bytes_all pos hpos j hj) P,
      Bool.not_not, M64_def, Nat.testBit_mod_two_pow,
      decide_eq_true (by omega : 8 * j + 7 < 64), Bool.true_and, Nat.testBit_shiftLeft,
      decide_eq_true (by omega : 7 - pos % 8 ≤ 8 * j + 7), Bool.true_and,
      show 8 * j + 7 - (7 - pos % 8) = 8 * j + pos % 8 from by omega]
  · have hL : ((topBytes ((P <<< (7 - pos % 8)) % M64) 8).testBit j) = false :=
      Nat.testBit_lt_two_pow
        (lt_of_lt_of_le htb (Nat.pow_le_pow_right (by omega) (by omega)))
    have hR : ((255 ^^^ zeroBytes (P &&& mdvAt pos 2) 8).testBit j) = false := by
      apply Nat.testBit_lt_two_pow
      have hx : 255 ^^^ zeroBytes (P &&& mdvAt pos 2) 8 < 256 := by
        rw [xor255_eq_sub _ hzb]
        omega
      calc 255 ^^^ zeroBytes (P &&& mdvAt pos 2) 8 < 2 ^ 8 := hx
      _ ≤ 2 ^ j := Nat.pow_le_pow_right (by omega) (by omega)
    rw [hL, hR]

/-- C3: for every square in [0,63] and every 64-bit bitboard P whose bit at the
square is clear, last_flip(square, P) equals 2 times the population count of
flip(square, P, ~P AND ~bit(square)): the terminal counter and the flip kernel
agree when the opponent set is the full-board complement of the player set and
the played square. -/
theorem last_flip_cross_consistent (pos P : Nat) (hpos : pos < 64) (hP : P < M64)
    (hPb : P.testBit pos = false) :
    last_flip pos P = 2 * bit_count (flip pos P (c64 P &&& c64 (2 ^ pos))) := by
  rw [flip_eq_specFlip pos P (c64 P &&& c64 (2 ^ pos)) hpos (termO_lt P pos)
    (termO_disj hP)]
  exact last_flip_decomp pos P hpos hP

theorem last_flip_cross_consistent_witness :
    (28 < 64 ∧ (2 : Nat) ^ 44 < M64 ∧ Nat.testBit (2 ^ 44) 28 = false) ∧
    last_flip 28 (2 ^ 44) = 2 * bit_count (flip 28 (2 ^ 44) (c64 (2 ^ 44) &&& c64 (2 ^ 28))) :=
  ⟨⟨by decide, by decide, by decide⟩,
    last_flip_cross_consistent 28 (2 ^ 44) (by decide) (by decide) (by decide)⟩

/-- C6: for every square in [0,63] and every 64-bit bitboard P, last_flip
returns an even number; the result is a natural number, hence non-negative. -/
theorem last_flip_even (pos P : Nat) (hpos : pos < 64) (hP : P < M64) :
    2 ∣ last_flip pos P := by
  have h0 := cfAt_even (pos / 8) (lastFlipT pos P >>> 16)
  have h1 := cfAt_even (pos / 8) ((lastFlipT pos P >>> 8) % 256)
  have h2 := cfAt_even (pos / 8) (lastFlipT pos P % 256)
  have h3 := cfAt_even (pos % 8) ((P >>> (pos / 8 * 8)) % 256)
  have hmain : last_flip pos P =
      (((cfAt (pos / 8) (lastFlipT pos P >>> 16) +
        cfAt (pos / 8) ((lastFlipT pos P >>> 8) % 256)) % 256 +
        cfAt (pos / 8) (lastFlipT pos P % 256)) % 256 +
        cfAt (pos % 8) ((P >>> (pos / 8 * 8)) % 256)) % 256 := rfl
  rw [hmain]
  omega

theorem last_flip_even_witness :
    (5 < 64 ∧ (0 : Nat) < M64) ∧ 2 ∣ last_flip 5 0 :=
  ⟨⟨by decide, M64_pos⟩, last_flip_even 5 0 (by decide) M64_pos⟩

set_option maxRecDepth 10000 in
/-- C8: last_flip(0, 0xFFFFFFFFFFFFFFF8) = 4: with square 0 the sole empty
square and player discs everywhere except squares 0, 1 and 2, two implied
opponent discs flip along the row, doubled to 4, while the column and diagonal
contribute 0 because their adjacent cell already holds a player disc. -/
theorem last_flip_terminal_row_scenario : last_flip 0 0xFFFFFFFFFFFFFFF8 = 4 := by
  decide

/-- C9: the AVX2 strategy of last_flip (mask_d_v with a 32-byte movemask) and
the SSE strategy (mask_d with a 16-byte movemask plus a left shift for the
column pattern) return equal results for every square in [0,63] and every
64-bit bitboard P. -/
theorem last_flip_avx2_sse_equiv (pos P : Nat) (hpos : pos < 64) (hP : P < M64) :
    last_flip pos P = last_flip_sse pos P := by
  obtain ⟨hm0, hm1⟩ := md_eq_mdv pos hpos
  obtain ⟨ht0, ht1, ht2, -⟩ := lastFlipT_bytes pos P hpos
  obtain ⟨hs0, hs1⟩ := lastFlipTSse_bytes pos P
  have hmainA : last_flip pos P =
      (((cfAt (pos / 8) (lastFlipT pos P >>> 16) +
        cfAt (pos / 8) ((lastFlipT pos P >>> 8) % 256)) % 256 +
        cfAt (pos / 8) (lastFlipT pos P % 256)) % 256 +
        cfAt (pos % 8) ((P >>> (pos / 8 * 8)) % 256)) % 256 := rfl
  have hmainS : last_flip_sse pos P =
      (((cfAt (pos / 8) (topBytes ((P <<< (pos % 8 ^^^ 7)) % M64) 8 +
        2 ^ 8 * topBytes ((0 <<< (pos % 8 ^^^ 7)) % M64) 8) +
        cfAt (pos / 8) ((lastFlipTSse pos P >>> 8) % 256)) % 256 +
        cfAt (pos / 8) (lastFlipTSse pos P % 256)) % 256 +
        cfAt (pos % 8) ((P >>> (pos / 8 * 8)) % 256)) % 256 := rfl
  rw [hmainA, hmainS, ht0, ht1, ht2, hs0, hs1, hm0, hm1, sse_col_pattern pos P hpos]

theorem last_flip_avx2_sse_equiv_witness :
    (9 < 64 ∧ (2 : Nat) ^ 18 < M64) ∧ last_flip 9 (2 ^ 18) = last_flip_sse 9 (2 ^ 18) :=
  ⟨⟨by decide, by decide⟩, last_flip_avx2_sse_equiv 9 (2 ^ 18) (by decide) (by decide)⟩

/-- C10: for every square in [0,63] and every 64-bit bitboard P, every table
access of last_flip is in bounds: both COUNT_FLIP indices are a lineRole in
[0,7] and a pattern in [0,255] (the index t >> 16 stays at most 255 because
lane 3 of mask_d_v is zero, zeroing the top byte of t), and the result is at
most 48. -/
theorem last_flip_accesses_in_bounds (pos P : Nat) (hpos : pos < 64) (hP : P < M64) :
    pos / 8 < 8 ∧ pos % 8 < 8 ∧
    lastFlipT pos P >>> 16 < 256 ∧ (lastFlipT pos P >>> 8) % 256 < 256 ∧
    lastFlipT pos P % 256 < 256 ∧ (P >>> (pos / 8 * 8)) % 256 < 256 ∧
    last_flip pos P ≤ 48 := by
  obtain ⟨ht0, ht1, ht2, ht3⟩ := lastFlipT_bytes pos P hpos
  have hp0 : 255 ^^^ zeroBytes (P &&& mdvAt pos 0) 8 < 256 := by
    have h := zeroBytes_lt (P &&& mdvAt pos 0) 8
    norm_num at h
    rw [xor255_eq_sub _ h]
    omega
  have hp1 : 255 ^^^ zeroBytes (P &&& mdvAt pos 1) 8 < 256 := by
    have h := zeroBytes_lt (P &&& mdvAt pos 1) 8
    norm_num at h
    rw [xor255_eq_sub _ h]
    omega
  have hp2 : 255 ^^^ zeroBytes (P &&& mdvAt pos 2) 8 < 256 := by
    have h := zeroBytes_lt (P &&& mdvAt pos 2) 8
    norm_num at h
    rw [xor255_eq_sub _ h]
    omega
  have b2 : cfAt (pos / 8) (lastFlipT pos P >>> 16) ≤ 12 := by
    rw [ht2]
    exact cf_le_12 (pos / 8) (by omega) _ hp2
  have b1 : cfAt (pos / 8) ((lastFlipT pos P >>> 8) % 256) ≤ 12 := by
    rw [ht1]
    exact cf_le_12 (pos / 8) (by omega) _ hp1
  have b0 : cfAt (pos / 8) (lastFlipT pos P % 256) ≤ 12 := by
    rw [ht0]
    exact cf_le_12 (pos / 8) (by omega) _ hp0
  have b3 : cfAt (pos % 8) ((P >>> (pos / 8 * 8)) % 256) ≤ 12 :=
    cf_le_12 (pos % 8) (by omega) _ (Nat.mod_lt _ (by norm_num))
  have hmain : last_flip pos P =
      (((cfAt (pos / 8) (lastFlipT pos P >>> 16) +
        cfAt (pos / 8) ((lastFlipT pos P >>> 8) % 256)) % 256 +
        cfAt (pos / 8) (lastFlipT pos P % 256)) % 256 +
        cfAt (pos % 8) ((P >>> (pos / 8 * 8)) % 256)) % 256 := rfl
  refine ⟨by omega, by omega, ?_, Nat.mod_lt _ (by norm_num), Nat.mod_lt _ (by norm_num),
    Nat.mod_lt _ (by norm_num), ?_⟩
  · rw [ht2]
    exact hp2
  · rw [hmain]
    omega

theorem last_flip_accesses_in_bounds_witness :
    (44 < 64 ∧ (2 : Nat) ^ 13 < M64) ∧
    (44 / 8 < 8 ∧ 44 % 8 < 8 ∧
      lastFlipT 44 (2 ^ 13) >>> 16 < 256 ∧ (lastFlipT 44 (2 ^ 13) >>> 8) % 256 < 256 ∧
      lastFlipT 44 (2 ^ 13) % 256 < 256 ∧ ((2 : Nat) ^ 13 >>> (44 / 8 * 8)) % 256 < 256 ∧
      last_flip 44 (2 ^ 13) ≤ 48) :=
  ⟨⟨by decide, by decide⟩, last_flip_accesses_in_bounds 44 (2 ^ 13) (by decide) (by decide)⟩

end Edax
